import Mathlib

/-!
Verification of the Strata-Dev workspace sandbox, file service, patch engine
and command policy (TypeScript sources under `app/main/services/`).

JavaScript strings are embedded as `List Char`; Node's POSIX `path` functions
(`path.resolve`, `path.join`, `path.dirname`, `path.sep`) are embedded as the
corresponding segment computations for absolute inputs, which is the only way
the repository invokes them (workspace roots come from `fs.realpath`, candidate
paths from `path.resolve`).  Filesystem and clock effects are made explicit:
functions that call `fs.realpath` take the resolution map as a parameter, and
the mutating file service returns an explicit trace of primitive filesystem
operations together with its result.
-/

namespace Strata

/-- Shorthand: a JavaScript string as a list of characters. -/
def str (s : String) : List Char := s.data

/-- POSIX `path.sep`. -/
def sep : Char := '/'

/-- Split a string at every `'/'` (the pieces between separators, in order;
empty pieces are kept, as in string splitting). -/
def splitOnSep : List Char → List (List Char)
  | [] => [[]]
  | c :: rest =>
    if c = sep then [] :: splitOnSep rest
    else
      match splitOnSep rest with
      | [] => [[c]]
      | s :: ss => (c :: s) :: ss

/-- One step of `path.resolve` segment normalization: empty segments and `.`
are dropped, `..` removes the last accumulated segment (clamping at the root),
anything else is appended. -/
def segStep (acc : List (List Char)) (s : List Char) : List (List Char) :=
  if s = [] ∨ s = str "." then acc
  else if s = str ".." then acc.dropLast
  else acc ++ [s]

/-- Normalize a raw segment list the way `path.resolve` does for an absolute
path. -/
def normSegs (segs : List (List Char)) : List (List Char) :=
  segs.foldl segStep []

/-- Join segments with `'/'` (no leading or trailing separator). -/
def joinSegs : List (List Char) → List Char
  | [] => []
  | [s] => s
  | s :: s' :: ss => s ++ sep :: joinSegs (s' :: ss)

/-- Render a canonical segment list as an absolute path: `"/"` for the root,
`"/a/b"` otherwise. -/
def renderAbs (segs : List (List Char)) : List Char :=
  sep :: joinSegs segs

/-- The canonical segments of a path string. -/
def segsOf (p : List Char) : List (List Char) :=
  normSegs (splitOnSep p)

/-- `path.resolve(p)` for an absolute `p` (every call site in the repository
passes an absolute path). -/
def resolveAbs (p : List Char) : List Char :=
  renderAbs (segsOf p)

/-- Whether a path string is absolute (starts with the separator). -/
def isAbsolute (p : List Char) : Bool :=
  p.head? == some sep

/-- `path.resolve(root, p)` for an absolute `root`: an absolute `p` wins,
otherwise `p` is resolved against `root`. -/
def resolveFrom (root p : List Char) : List Char :=
  if isAbsolute p then resolveAbs p else resolveAbs (root ++ sep :: p)

/-- `const normalize = (value) => path.resolve(value)` from `security.ts`
(absolute inputs). -/
def normalize (value : List Char) : List Char :=
  resolveAbs value

/-- `isWithinRoot` from `security.ts`:
`candidate === root || candidate.startsWith(root + path.sep)` after
normalizing both sides. -/
def isWithinRoot (rootPath candidatePath : List Char) : Bool :=
  let root := normalize rootPath
  let candidate := normalize candidatePath
  candidate == root || (root ++ [sep]).isPrefixOf candidate

/-- `path.dirname` on a canonical absolute path (all uses in the sources apply
it to outputs of `path.resolve`/`path.join`): drop the last segment. -/
def dirname (p : List Char) : List Char :=
  renderAbs (segsOf p).dropLast

/-- `path.join(a, b)` for an absolute `a` (normalizes `.` and `..` segments,
clamping at the root, exactly as `path.posix.join`). -/
def pathJoin (a b : List Char) : List Char :=
  resolveAbs (a ++ sep :: b)

/-! ### Errors (`shared/contracts.ts` and `errors.ts`) -/

/-- `AppErrorCode` from `contracts.ts`, plus `ENOENT`: a Node filesystem error
object carries `code`/`message` fields, so `toAppError` passes it through
structurally with its runtime code. -/
inductive ErrCode where
  | INVALID_INPUT
  | WORKSPACE_NOT_OPEN
  | PATH_OUTSIDE_WORKSPACE
  | FILE_NOT_FOUND
  | HASH_MISMATCH
  | PATCH_PREVIEW_FAILED
  | PATCH_APPLY_FAILED
  | COMMAND_DENIED
  | COMMAND_NOT_FOUND
  | COMMAND_EXECUTION_FAILED
  | DATABASE_ERROR
  | INTERNAL_ERROR
  | ENOENT
deriving DecidableEq, Repr

/-- Values thrown inside the main-process services: the structured
`PATH_OUTSIDE_WORKSPACE` object from `security.ts`, the
`WORKSPACE_NOT_OPEN` object from `requireRoot`, or a Node `ENOENT`
filesystem error (e.g. from `fs.realpath`). -/
inductive Thrown where
  | pathOutside (candidatePath rootPath : List Char)
  | workspaceNotOpen
  | fsENOENT (p : List Char)
deriving DecidableEq, Repr

mutual

/-- `AppError` from `contracts.ts`: code, message and a `details` payload. -/
inductive AppError where
  | mk (code : ErrCode) (message : List Char) (details : AppDetails)
deriving DecidableEq

/-- The `details` payloads actually constructed by the services. -/
inductive AppDetails where
  | noDetails
  | hashMismatch (path expectedSha256 actualSha : List Char)
  | pathInfo (candidatePath rootPath : List Char)
  | wrapped (e : AppError)
deriving DecidableEq

end

/-- `toAppError` from `errors.ts` applied to a thrown value: an object with
`code` and `message` fields is passed through as an `AppError`. -/
def toAppError : Thrown → AppError
  | .pathOutside c r =>
      .mk .PATH_OUTSIDE_WORKSPACE (str "Path is outside the active workspace: " ++ c) (.pathInfo c r)
  | .workspaceNotOpen =>
      .mk .WORKSPACE_NOT_OPEN (str "No workspace is currently open") .noDetails
  | .fsENOENT p =>
      .mk .ENOENT (str "ENOENT: no such file or directory " ++ p) .noDetails

/-- `Result<T>` from `contracts.ts`. -/
abbrev Res (α : Type) := Except AppError α

/-- `err(code, message, details)` from `errors.ts`. -/
def errRes {α : Type} (code : ErrCode) (message : List Char) (details : AppDetails) : Res α :=
  Except.error (.mk code message details)

/-! ### `security.ts` -/

/-- `resolveInsideWorkspace` from `security.ts`.  `realpathFn` is the ambient
filesystem's symlink resolution (`fs.realpath`); `none` means the call throws
(file missing).  Errors are the values the function throws. -/
def resolveInsideWorkspace (realpathFn : List Char → Option (List Char))
    (rootPath relativePath : List Char) (mustExist : Bool) :
    Except Thrown (List Char) :=
  let root := normalize rootPath
  let joined := normalize (resolveFrom root relativePath)
  if ¬ isWithinRoot root joined then .error (.pathOutside joined root)
  else if mustExist then
    match realpathFn joined with
    | none => .error (.fsENOENT joined)
    | some real =>
      if ¬ isWithinRoot root real then .error (.pathOutside real root)
      else .ok real
  else
    let parent := dirname joined
    match realpathFn parent with
    | none => .error (.fsENOENT parent)
    | some parentReal =>
      if ¬ isWithinRoot root parentReal then .error (.pathOutside parentReal root)
      else .ok joined

/-- `k` copies of `".."` joined with `'/'` — the relative traversal path
`"../../.."` of depth `k`. -/
def dotDots (k : Nat) : List Char :=
  joinSegs (List.replicate k (str ".."))

/-! ### Properties of the path model -/

/-- A canonical path segment: nonempty, separator-free, and not `.` or `..`. -/
def GoodSeg (s : List Char) : Prop :=
  s ≠ [] ∧ sep ∉ s ∧ s ≠ str "." ∧ s ≠ str ".."

instance (s : List Char) : Decidable (GoodSeg s) := by
  unfold GoodSeg
  infer_instance

/-! ### `workspaceService.ts`: directory tree walking -/

/-- `IGNORED_DIRS` from `workspaceService.ts`. -/
def IGNORED_DIRS : List (List Char) :=
  [str ".git", str "node_modules", str "dist", str "dist-electron", str "release"]

/-- One `fs.Dirent` from `fs.readdir(..., { withFileTypes: true })`:
`isDirectory()`/`isFile()` do not follow symlinks, so both are `false` for a
symlink entry. -/
structure DirEnt where
  name : List Char
  isDirectoryD : Bool
  isFileD : Bool

/-- `FileNode` from `contracts.ts`. -/
inductive FileNode where
  | file (path name : List Char) (size : Nat) (mtimeMs : Int)
  | directory (path name : List Char) (children : Option (List FileNode))

/-- The `name` field of a node. -/
def FileNode.name : FileNode → List Char
  | .file _ n _ _ => n
  | .directory _ n _ => n

/-- Whether a node is a directory (`type === 'directory'`). -/
def FileNode.isDir : FileNode → Bool
  | .file _ _ _ _ => false
  | .directory _ _ _ => true

/-- The ambient filesystem as `walk`/`listTree` observe it: directory
listings, `lstat` data, symlink resolution, and the current locale's string
comparison used by `localeCompare` in the sort. -/
structure WalkFS where
  readdir : List Char → List DirEnt
  lstatIsSymlink : List Char → Bool
  lstatSize : List Char → Nat
  lstatMtimeMs : List Char → Int
  realpathF : List Char → Option (List Char)
  nameLe : List Char → List Char → Bool

/-- `path.join(dir, name)` for a plain entry name. -/
def childPath (dir name : List Char) : List Char :=
  dir ++ sep :: name

/-- `path.relative(rootPath, absPath) || '.'` for the walk's paths, which are
always the root or chain-joined children of it. -/
def relPathOf (rootPath absPath : List Char) : List Char :=
  if (rootPath ++ [sep]).isPrefixOf absPath then absPath.drop (rootPath.length + 1)
  else str "."

/-- The sort comparator from `walk`: directories before files, then names by
`localeCompare`. -/
def nodeLe (fs : WalkFS) (a b : FileNode) : Bool :=
  if a.isDir != b.isDir then a.isDir else fs.nameLe a.name b.name

/-- Stable insertion of `x` into `l` under `le`. -/
def insertLe {α : Type} (le : α → α → Bool) (x : α) : List α → List α
  | [] => [x]
  | y :: ys => if le x y then x :: y :: ys else y :: insertLe le x ys

/-- Stable insertion sort under `le`. -/
def sortLe {α : Type} (le : α → α → Bool) : List α → List α
  | [] => []
  | x :: xs => insertLe le x (sortLe le xs)

/-- The `nodes.sort(...)` call (JavaScript's comparator sort, stable for a
consistent comparator; modeled as a stable insertion sort). -/
def sortNodes (fs : WalkFS) (nodes : List FileNode) : List FileNode :=
  sortLe (nodeLe fs) nodes

/-- One entry of `WorkspaceService.walk`: the `.`/`..` and `IGNORED_DIRS`
filters, the per-entry symlink containment check (entries whose resolved
target is missing or outside the root yield `null`), then the
file/directory node construction.  `childrenOf` is the recursive call made
for directories (`none` when `depth <= 1`). -/
def walkEntry (fs : WalkFS) (rootPath absDirectoryPath : List Char)
    (childrenOf : List Char → Option (List FileNode)) (entry : DirEnt) :
    Option FileNode :=
  if entry.name = str "." ∨ entry.name = str ".." then none
  else if entry.name ∈ IGNORED_DIRS then none
  else
    let absPath := childPath absDirectoryPath entry.name
    let relPath := relPathOf rootPath absPath
    let blocked : Bool :=
      if fs.lstatIsSymlink absPath then
        match fs.realpathF absPath with
        | none => true
        | some resolved => ! isWithinRoot rootPath resolved
      else false
    if blocked then none
    else if entry.isDirectoryD then
      some (.directory relPath entry.name (childrenOf absPath))
    else if entry.isFileD then
      some (.file relPath entry.name (fs.lstatSize absPath) (fs.lstatMtimeMs absPath))
    else none

/-- One directory level of `WorkspaceService.walk`. -/
def walkLevel (fs : WalkFS) (rootPath : List Char)
    (childrenOf : List Char → Option (List FileNode)) (absDirectoryPath : List Char) :
    List FileNode :=
  sortNodes fs ((fs.readdir absDirectoryPath).filterMap
    (walkEntry fs rootPath absDirectoryPath childrenOf))

/-- `WorkspaceService.walk(absDirectoryPath, rootPath, depth)`: recurses into
directories with `depth - 1` while `depth > 1`. -/
def walk (fs : WalkFS) (rootPath : List Char) : Nat → List Char → List FileNode
  | 0 => walkLevel fs rootPath (fun _ => none)
  | 1 => walkLevel fs rootPath (fun _ => none)
  | d + 2 => walkLevel fs rootPath (fun absPath => some (walk fs rootPath (d + 1) absPath))

/-- A one-file sample filesystem used to witness the tree-walk theorem: the
directory `/ws` holds a single regular file `a.txt`. -/
def sampleWalkFS : WalkFS where
  readdir := fun d => if d = str "/ws" then [⟨str "a.txt", false, true⟩] else []
  lstatIsSymlink := fun _ => false
  lstatSize := fun _ => 3
  lstatMtimeMs := fun _ => 5
  realpathF := fun p => some p
  nameLe := fun _ _ => true

/-! ### A symlink-free filesystem state for the file service

`WorkspaceService.writeFile` mutates the filesystem.  Its effects are modeled
as an explicit trace of the primitive operations the source performs
(`fs.mkdir{recursive}`, `fs.writeFile`, `fs.rename`), applied to a state of
file contents plus created directories.  `fs.realpath` on such a state is the
identity on existing paths (no symlinks). -/

/-- Filesystem state: file contents keyed by absolute path, plus the set of
directories known to exist. -/
structure FS where
  files : List (List Char × List Char)
  dirs : List (List Char)

/-- Remove every binding of key `p` from an association list keyed by
strings. -/
def eraseKey {β : Type} (p : List Char) (l : List (List Char × β)) :
    List (List Char × β) :=
  l.filter (fun kv => ! (kv.1 == p))

/-- `fs.readFile` (as content lookup). -/
def FS.read (st : FS) (p : List Char) : Option (List Char) :=
  st.files.lookup p

/-- A primitive filesystem mutation performed by `writeFile`. -/
inductive FSOp where
  | mkdirRec (dir : List Char)
  | writeF (p content : List Char)
  | renameF (src dst : List Char)
deriving DecidableEq, Repr

/-- All segment-list prefixes of a segment list (shortest first). -/
def segPrefixes : List (List Char) → List (List (List Char))
  | [] => [[]]
  | s :: ss => [] :: (segPrefixes ss).map (s :: ·)

/-- Apply one primitive operation: recursive `mkdir` creates the directory and
all its ancestors; `writeFile` replaces the binding; `rename` moves the
content from `src` to `dst`. -/
def FS.applyOp (st : FS) : FSOp → FS
  | .mkdirRec d => { st with dirs := (segPrefixes (segsOf d)).map renderAbs ++ st.dirs }
  | .writeF p c => { st with files := (p, c) :: eraseKey p st.files }
  | .renameF src dst =>
    match st.files.lookup src with
    | none => st
    | some c => { st with files := (dst, c) :: eraseKey dst (eraseKey src st.files) }

/-- Apply a trace of operations in order. -/
def FS.applyOps (st : FS) (ops : List FSOp) : FS :=
  ops.foldl FS.applyOp st

/-- Whether a path exists in the state (as a file or a directory). -/
def FS.pathExists (st : FS) (p : List Char) : Bool :=
  (st.files.lookup p).isSome || st.dirs.contains p

/-- `fs.realpath` on a symlink-free state: the identity on existing paths,
an `ENOENT` throw (`none`) otherwise. -/
def FS.realpathNoLinks (st : FS) (p : List Char) : Option (List Char) :=
  if st.pathExists p then some p else none

/-- `WorkspaceMeta` from `contracts.ts`. -/
structure WorkspaceMeta where
  rootPath : List Char
  name : List Char
  openedAt : List Char

/-- `ReadFileResult` from `contracts.ts`. -/
structure ReadFileResult where
  content : List Char
  encoding : List Char
  sha256 : List Char
deriving DecidableEq, Repr

/-- Decimal digits of a numeric value interpolated into a path
(`Date.now().toString()`, `Math.floor(Math.random() * 10000)`). -/
def natChars (n : Nat) : List Char :=
  str (toString n)

/-- `path.join(rootPath, '.strata-backups', Date.now().toString())` from
`writeFile`. -/
def backupRootOf (rootPath : List Char) (now : Nat) : List Char :=
  pathJoin (pathJoin rootPath (str ".strata-backups")) (natChars now)

/-- `path.join(backupRoot, relativePath)` from `writeFile`. -/
def backupPathOf (rootPath relativePath : List Char) (now : Nat) : List Char :=
  pathJoin (backupRootOf rootPath now) relativePath

/-- The temporary sibling `${absPath}.strata-tmp-${Date.now()}-${random}`. -/
def tmpPathOf (absPath : List Char) (now rand : Nat) : List Char :=
  absPath ++ str ".strata-tmp-" ++ natChars now ++ '-' :: natChars rand

/-- `WorkspaceService.writeFile(relativePath, content, expectedSha256)`.
`ws` is the service's current workspace; `hash` is the `sha256` fingerprint
function; `now`/`rand` are the sampled clock and random values.  Returns the
`Result` and the trace of filesystem operations performed (empty on failure:
every error return happens before the first mutation).  Thrown errors are
wrapped as `INTERNAL_ERROR` by the surrounding catch.  Note
`if (expectedSha256 && hadExistingFile)`: an empty fingerprint string is falsy
in JavaScript, so it disables the precondition check. -/
def writeFile (hash : List Char → List Char) (ws : Option WorkspaceMeta) (st : FS)
    (relativePath content : List Char) (expectedSha256 : Option (List Char))
    (now rand : Nat) : Res Unit × List FSOp :=
  match ws with
  | none =>
    (errRes .INTERNAL_ERROR (str "Failed to write file: " ++ relativePath)
      (.wrapped (toAppError .workspaceNotOpen)), [])
  | some w =>
    match resolveInsideWorkspace st.realpathNoLinks w.rootPath relativePath false with
    | .error t =>
      (errRes .INTERNAL_ERROR (str "Failed to write file: " ++ relativePath)
        (.wrapped (toAppError t)), [])
    | .ok absPath =>
      let existing := st.read absPath
      let hadExistingFile := existing.isSome
      let existingContent := existing.getD []
      let doWrite : Res Unit × List FSOp :=
        let mkdirOps := [FSOp.mkdirRec (dirname absPath)]
        let backupOps :=
          if hadExistingFile then
            let backupPath := backupPathOf w.rootPath relativePath now
            [FSOp.mkdirRec (dirname backupPath), FSOp.writeF backupPath existingContent]
          else []
        let tmpPath := tmpPathOf absPath now rand
        (Except.ok (), mkdirOps ++ backupOps ++ [FSOp.writeF tmpPath content, FSOp.renameF tmpPath absPath])
      match expectedSha256 with
      | some e =>
        if e ≠ [] ∧ hadExistingFile then
          let actualSha := hash existingContent
          if actualSha ≠ e then
            (errRes .HASH_MISMATCH (str "File content hash mismatch. Reload and retry apply.")
              (.hashMismatch relativePath e actualSha), [])
          else doWrite
        else doWrite
      | none => doWrite

/-- `WorkspaceService.readFile(relativePath)`. -/
def readFile (hash : List Char → List Char) (ws : Option WorkspaceMeta) (st : FS)
    (relativePath : List Char) : Res ReadFileResult :=
  match ws with
  | none =>
    errRes .FILE_NOT_FOUND (str "Unable to read file: " ++ relativePath)
      (.wrapped (toAppError .workspaceNotOpen))
  | some w =>
    match resolveInsideWorkspace st.realpathNoLinks w.rootPath relativePath true with
    | .error t =>
      errRes .FILE_NOT_FOUND (str "Unable to read file: " ++ relativePath)
        (.wrapped (toAppError t))
    | .ok absPath =>
      match st.read absPath with
      | none =>
        errRes .FILE_NOT_FOUND (str "Unable to read file: " ++ relativePath)
          (.wrapped (toAppError (.fsENOENT absPath)))
      | some content => .ok ⟨content, str "utf-8", hash content⟩

/-! ### Behavior of `writeFile` on the state model -/

/-- The workspace used by the concrete witnesses: root `/ws`. -/
def wsMeta : WorkspaceMeta := ⟨str "/ws", str "ws", str "2026-01-01T00:00:00.000Z"⟩

/-- A toy injective stand-in for the SHA-256 fingerprint (the hash function is
a parameter of the model; any function exercises the same control flow). -/
def hashToy : List Char → List Char := fun c => 'h' :: c

/-- Witness state: `/ws` contains `a.txt` with content `old`. -/
def fsOne : FS := ⟨[(str "/ws/a.txt", str "old")], [str "/ws"]⟩

/-- Witness state: `/ws` exists and is empty. -/
def fsEmpty : FS := ⟨[], [str "/ws"]⟩

/-- Witness state: `/ws` contains `b.txt` with content `old`. -/
def fsB : FS := ⟨[(str "/ws/b.txt", str "old")], [str "/ws"]⟩

/-- Deterministic clock/random samples for the concrete patch scenarios. -/
def ticksK : Nat → Nat × Nat := fun _ => (1000, 7)

/-! ### `patchService.ts` -/

/-- `FilePatch` from `contracts.ts`. -/
structure FilePatch where
  path : List Char
  originalContent : List Char
  newContent : List Char
  expectedSha256 : Option (List Char)
deriving DecidableEq, Repr

/-- `CommandPolicyDecision` from `contracts.ts`. -/
inductive CommandDecision where
  | pending
  | approved
  | denied
deriving DecidableEq, Repr

/-- `CommandProposal` from `contracts.ts`. -/
structure CommandProposal where
  id : List Char
  sessionId : List Char
  command : List Char
  cwd : List Char
  createdAt : List Char
  decision : CommandDecision
deriving DecidableEq, Repr

/-- `ChangeSetStatus` from `contracts.ts`. -/
inductive ChangeSetStatus where
  | pending
  | applied
  | discarded
  | failed
deriving DecidableEq, Repr

/-- `CodeChangeSet` from `contracts.ts`. -/
structure CodeChangeSet where
  id : List Char
  sessionId : List Char
  source : List Char
  summary : List Char
  createdAt : List Char
  status : ChangeSetStatus
  filePatches : List FilePatch
  proposedCommands : List CommandProposal
deriving DecidableEq, Repr

/-- `ApplyResult` returned by `applyPatch`. -/
structure ApplyResult where
  appliedFiles : List (List Char)
  skippedFiles : List (List Char)
deriving DecidableEq, Repr

/-- A persistence call forwarded (through `safeCall`) to the database
collaborator. -/
inductive DBOp where
  | saveChangeSet (cs : CodeChangeSet)
  | updateChangeSetStatus (id : List Char) (status : ChangeSetStatus)
  | saveCommandRun (runId sessionId : List Char)
deriving DecidableEq, Repr

/-- The Patch Engine's live pending registry `pendingById`. -/
abbrev PendingMap := List (List Char × CodeChangeSet)

/-- The `for (const filePatch of changeSet.filePatches)` loop of
`PatchService.applyPatch`: unselected patches are recorded as skipped; each
selected patch is written through `WorkspaceService.writeFile`; the first
write failure stops the loop.  `ticks i` supplies the `Date.now()` /
`Math.random()` samples of the `i`-th write call.  Returns the failure (path
and error) if any, the filesystem state, the `appliedFiles` and
`skippedFiles` accumulators, and the next write index. -/
def applyLoop (hash : List Char → List Char) (ws : Option WorkspaceMeta)
    (ticks : Nat → Nat × Nat) :
    Nat → FS → List FilePatch → List (List Char) → List (List Char) → List (List Char) →
    Option (List Char × AppError) × FS × List (List Char) × List (List Char) × Nat
  | i, st, [], _, applied, skipped => (none, st, applied, skipped, i)
  | i, st, p :: rest, sel, applied, skipped =>
    if p.path ∉ sel then
      applyLoop hash ws ticks i st rest sel applied (skipped ++ [p.path])
    else
      match writeFile hash ws st p.path p.newContent p.expectedSha256 (ticks i).1 (ticks i).2 with
      | (.error e, ops) => (some (p.path, e), st.applyOps ops, applied, skipped ++ [p.path], i + 1)
      | (.ok _, ops) =>
        applyLoop hash ws ticks (i + 1) (st.applyOps ops) rest sel (applied ++ [p.path]) skipped

/-- `PatchService.applyPatch(changeSetId, selectedFiles)`.  Returns the
`Result`, the filesystem state, the updated pending registry, and the
persistence trace.  On the first write failure the change set's status is
mutated to `failed` in place (the object stays in the registry — there is no
`delete` on this path) and persisted; on full success the set is removed from
the registry and persisted as `applied`. -/
def applyPatch (hash : List Char → List Char) (ws : Option WorkspaceMeta)
    (ticks : Nat → Nat × Nat) (fsSt : FS) (pendingById : PendingMap)
    (changeSetId : List Char) (selectedFiles : Option (List (List Char))) :
    Res ApplyResult × FS × PendingMap × List DBOp :=
  match pendingById.lookup changeSetId with
  | none =>
    (errRes .PATCH_APPLY_FAILED (str "Change set not found: " ++ changeSetId) .noDetails,
      fsSt, pendingById, [])
  | some changeSet =>
    let selectedSet := selectedFiles.getD (changeSet.filePatches.map (·.path))
    match applyLoop hash ws ticks 0 fsSt changeSet.filePatches selectedSet [] [] with
    | (some (p, e), st', _, _, _) =>
      (errRes .PATCH_APPLY_FAILED (str "Failed applying patch for " ++ p) (.wrapped e),
        st',
        (changeSetId, { changeSet with status := .failed }) :: eraseKey changeSetId pendingById,
        [DBOp.updateChangeSetStatus changeSet.id .failed])
    | (none, st', applied, skipped, _) =>
      (.ok ⟨applied, skipped⟩, st',
        eraseKey changeSet.id pendingById,
        [DBOp.updateChangeSetStatus changeSet.id .applied])

/-- `PatchService.discardChangeSet(changeSetId)`. -/
def discardChangeSet (pendingById : PendingMap) (changeSetId : List Char) :
    Res Unit × PendingMap × List DBOp :=
  match pendingById.lookup changeSetId with
  | none =>
    (errRes .PATCH_APPLY_FAILED (str "Change set not found: " ++ changeSetId) .noDetails,
      pendingById, [])
  | some _ =>
    (.ok (), eraseKey changeSetId pendingById,
      [DBOp.updateChangeSetStatus changeSetId .discarded])

/-- `PatchService.registerChangeSet(changeSet)`. -/
def registerChangeSet (pendingById : PendingMap) (changeSet : CodeChangeSet) :
    Res CodeChangeSet × PendingMap × List DBOp :=
  (.ok changeSet, (changeSet.id, changeSet) :: eraseKey changeSet.id pendingById,
    [DBOp.saveChangeSet changeSet])

/-- The spec's fail-fast scenario, first patch: `a.txt` with a matching
fingerprint. -/
def patchA3 : FilePatch := ⟨str "a.txt", str "A", str "A2", some (hashToy (str "A"))⟩

/-- Second patch: `b.txt` with a stale fingerprint. -/
def patchB3 : FilePatch := ⟨str "b.txt", str "B", str "B2", some (str "stale")⟩

/-- Third patch: `c.txt` with a matching fingerprint. -/
def patchC3 : FilePatch := ⟨str "c.txt", str "C", str "C2", some (hashToy (str "C"))⟩

/-- A pending change set holding the three patches. -/
def cs3 : CodeChangeSet :=
  ⟨str "cs-3", str "session-1", str "ai", str "demo", str "t0", .pending,
    [patchA3, patchB3, patchC3], []⟩

/-- Workspace contents for the fail-fast scenario. -/
def fs3 : FS :=
  ⟨[(str "/ws/a.txt", str "A"), (str "/ws/b.txt", str "B"), (str "/ws/c.txt", str "C")],
    [str "/ws"]⟩

/-- Registry holding the three-patch change set. -/
def pend3 : PendingMap := [(str "cs-3", cs3)]

/-- The filesystem state after the loop has applied the first patch. -/
def stMid3 : FS :=
  (applyLoop hashToy (some wsMeta) ticksK 0 fs3 [patchA3]
    (cs3.filePatches.map (·.path)) [] []).2.1

/-! ### `shellService.ts` -/

/-- `CommandRunHandle` from `contracts.ts`. -/
structure CommandRunHandle where
  runId : List Char
  proposalId : List Char
  startedAt : List Char
deriving DecidableEq, Repr

/-- A `ProposalRecord` of `ShellService`: the proposal plus its validated
absolute working directory. -/
structure ProposalRecord where
  proposal : CommandProposal
  absCwd : List Char
deriving DecidableEq, Repr

/-- The in-memory proposal table `proposals`. -/
abbrev ProposalMap := List (List Char × ProposalRecord)

/-- A process launch performed via the spawn collaborator. -/
inductive SpawnEvent where
  | spawn (command cwd : List Char)
deriving DecidableEq, Repr

/-- `ShellService.requestCommand(sessionId, command, cwd)`: validates the
cwd against the workspace (string containment, then existence, directory
check and real-path containment) and records a `pending` proposal.
`realpathSyncF`/`statIsDirF` are the ambient filesystem (`none` = the call
throws, caught as invalid-input); `newId`/`createdAt` are the sampled uuid
and clock. -/
def requestCommand (ws : Option WorkspaceMeta) (proposals : ProposalMap)
    (realpathSyncF : List Char → Option (List Char))
    (statIsDirF : List Char → Option Bool)
    (sessionId command cwd newId createdAt : List Char) :
    Res CommandProposal × ProposalMap :=
  match ws with
  | none =>
    (errRes .WORKSPACE_NOT_OPEN (str "Open a workspace before executing commands") .noDetails,
      proposals)
  | some w =>
    let absCwdCandidate := resolveFrom w.rootPath cwd
    if ¬ isWithinRoot w.rootPath absCwdCandidate then
      (errRes .PATH_OUTSIDE_WORKSPACE (str "Command cwd must be inside workspace: " ++ cwd)
        .noDetails, proposals)
    else
      match realpathSyncF absCwdCandidate with
      | none =>
        (errRes .INVALID_INPUT (str "Command cwd does not exist: " ++ cwd) .noDetails, proposals)
      | some absCwd =>
        match statIsDirF absCwd with
        | none =>
          (errRes .INVALID_INPUT (str "Command cwd does not exist: " ++ cwd) .noDetails,
            proposals)
        | some false =>
          (errRes .INVALID_INPUT (str "Command cwd must be a directory: " ++ cwd) .noDetails,
            proposals)
        | some true =>
          if ¬ isWithinRoot w.rootPath absCwd then
            (errRes .PATH_OUTSIDE_WORKSPACE
              (str "Command cwd resolves outside workspace: " ++ cwd) .noDetails, proposals)
          else
            let proposal : CommandProposal := ⟨newId, sessionId, command, cwd, createdAt, .pending⟩
            (.ok proposal, (newId, ⟨proposal, absCwd⟩) :: eraseKey newId proposals)

/-- `ShellService.runCommand(proposalId, confirmed)`: the confirmation gate
(`if (!confirmed)`) runs before the proposal table is consulted; then the
proposal is looked up, the stored working directory is re-validated against
the current workspace, the proposal's decision is mutated to `approved`, a
run record is persisted, and the process is spawned.  Returns the `Result`,
the proposal table, the persistence trace and the spawn trace; `runId` and
`startedAt` are the sampled uuid and clock. -/
def runCommand (ws : Option WorkspaceMeta) (proposals : ProposalMap)
    (proposalId : List Char) (confirmed : Bool) (runId startedAt : List Char) :
    Res CommandRunHandle × ProposalMap × List DBOp × List SpawnEvent :=
  if !confirmed then
    (errRes .COMMAND_DENIED (str "Command execution requires explicit confirmation") .noDetails,
      proposals, [], [])
  else
    match proposals.lookup proposalId with
    | none =>
      (errRes .COMMAND_NOT_FOUND (str "Unknown command proposal: " ++ proposalId) .noDetails,
        proposals, [], [])
    | some record =>
      match ws with
      | none =>
        (errRes .PATH_OUTSIDE_WORKSPACE
          (str "Command cwd is no longer valid for active workspace") .noDetails,
          proposals, [], [])
      | some w =>
        if ¬ isWithinRoot w.rootPath record.absCwd then
          (errRes .PATH_OUTSIDE_WORKSPACE
            (str "Command cwd is no longer valid for active workspace") .noDetails,
            proposals, [], [])
        else
          let proposal' := { record.proposal with decision := .approved }
          (.ok ⟨runId, proposalId, startedAt⟩,
            (proposalId, { record with proposal := proposal' }) :: eraseKey proposalId proposals,
            [DBOp.saveCommandRun runId record.proposal.sessionId],
            [SpawnEvent.spawn record.proposal.command record.absCwd])

/-- A proposal record for the concrete shell witnesses. -/
def recK : ProposalRecord :=
  ⟨⟨str "p-1", str "session-1", str "echo hi", str ".", str "t0", .pending⟩, str "/ws"⟩

/-- A proposal table holding `recK` under id `p-1`. -/
def propsK : ProposalMap := [(str "p-1", recK)]

/-- A different workspace (root `/other`) for the re-validation witness. -/
def wsOther : WorkspaceMeta := ⟨str "/other", str "other", str "t0"⟩

end Strata

/-! ### Properties proved about the embedded services -/

namespace Strata

theorem splitOnSep_ne_nil (l : List Char) : splitOnSep l ≠ [] := by
  induction l with
  | nil => simp [splitOnSep]
  | cons c rest ih =>
    unfold splitOnSep
    by_cases h : c = sep
    · simp [h]
    · cases hr : splitOnSep rest <;> simp [h, hr]

theorem sep_not_mem_splitOnSep : ∀ (l : List Char), ∀ s ∈ splitOnSep l, sep ∉ s := by
  intro l
  induction l with
  | nil =>
    intro s hs
    simp only [splitOnSep, List.mem_singleton] at hs
    simp [hs]
  | cons c rest ih =>
    intro s hs
    unfold splitOnSep at hs
    by_cases h : c = sep
    · rw [if_pos h] at hs
      rcases List.mem_cons.mp hs with h0 | h0
      · simp [h0]
      · exact ih s h0
    · rw [if_neg h] at hs
      cases hr : splitOnSep rest with
      | nil => exact absurd hr (splitOnSep_ne_nil rest)
      | cons s0 ss =>
        rw [hr] at hs
        rcases List.mem_cons.mp hs with h0 | h0
        · subst h0
          intro hmem
          rcases List.mem_cons.mp hmem with h1 | h1
          · exact h h1.symm
          · exact ih s0 (hr ▸ List.mem_cons_self s0 ss) h1
        · exact ih s (hr ▸ List.mem_cons_of_mem s0 h0)

theorem mem_segStep {acc : List (List Char)} {a s : List Char} (hs : s ∈ segStep acc a) :
    s ∈ acc ∨ (s = a ∧ a ≠ [] ∧ a ≠ str "." ∧ a ≠ str "..") := by
  unfold segStep at hs
  by_cases h1 : a = [] ∨ a = str "."
  · rw [if_pos h1] at hs
    exact Or.inl hs
  · by_cases h2 : a = str ".."
    · rw [if_neg h1, if_pos h2] at hs
      exact Or.inl ((List.dropLast_prefix acc).subset hs)
    · rw [if_neg h1, if_neg h2] at hs
      rcases List.mem_append.mp hs with h | h
      · exact Or.inl h
      · push_neg at h1
        exact Or.inr ⟨List.mem_singleton.mp h, h1.1, h1.2, h2⟩

theorem goodSeg_foldl :
    ∀ (segs : List (List Char)) (acc : List (List Char)),
      (∀ s ∈ acc, GoodSeg s) → (∀ s ∈ segs, sep ∉ s) →
      ∀ s ∈ List.foldl segStep acc segs, GoodSeg s := by
  intro segs
  induction segs with
  | nil => intro acc hacc _ s hs; exact hacc s hs
  | cons a as ih =>
    intro acc hacc hsegs s hs
    rw [List.foldl_cons] at hs
    refine ih (segStep acc a) ?_ (fun t ht => hsegs t (List.mem_cons_of_mem a ht)) s hs
    intro t ht
    rcases mem_segStep ht with h | ⟨rfl, h1, h2, h3⟩
    · exact hacc t h
    · exact ⟨h1, hsegs t (by simp), h2, h3⟩

theorem goodSeg_segsOf (p : List Char) : ∀ s ∈ segsOf p, GoodSeg s :=
  goodSeg_foldl (splitOnSep p) [] (by simp) (sep_not_mem_splitOnSep p)

theorem foldl_segStep_good :
    ∀ (segs : List (List Char)) (acc : List (List Char)),
      (∀ s ∈ segs, s ≠ [] ∧ s ≠ str "." ∧ s ≠ str "..") →
      List.foldl segStep acc segs = acc ++ segs := by
  intro segs
  induction segs with
  | nil => intro acc _; simp
  | cons a as ih =>
    intro acc h
    have ha := h a (List.mem_cons_self a as)
    have hstep : segStep acc a = acc ++ [a] := by
      unfold segStep
      rw [if_neg (by tauto), if_neg ha.2.2]
    rw [List.foldl_cons, hstep, ih (acc ++ [a]) (fun s hs => h s (List.mem_cons_of_mem a hs))]
    simp

theorem splitOnSep_sepFree : ∀ {s : List Char}, sep ∉ s → splitOnSep s = [s] := by
  intro s
  induction s with
  | nil => intro _; rfl
  | cons c rest ih =>
    intro h
    have hc : c ≠ sep := fun hh => h (hh ▸ List.mem_cons_self c rest)
    have hrest : sep ∉ rest := fun hh => h (List.mem_cons_of_mem c hh)
    simp [splitOnSep, hc, ih hrest]

theorem splitOnSep_append_sep {s : List Char} (h : sep ∉ s) (t : List Char) :
    splitOnSep (s ++ sep :: t) = s :: splitOnSep t := by
  induction s with
  | nil => simp [splitOnSep]
  | cons c rest ih =>
    have hc : c ≠ sep := fun hh => h (hh ▸ List.mem_cons_self c rest)
    have hrest : sep ∉ rest := fun hh => h (List.mem_cons_of_mem c hh)
    simp [splitOnSep, List.cons_append, hc, ih hrest]

theorem splitOnSep_joinSegs :
    ∀ (segs : List (List Char)), segs ≠ [] → (∀ s ∈ segs, sep ∉ s) →
      splitOnSep (joinSegs segs) = segs
  | [], h, _ => absurd rfl h
  | [s], _, hv => by
    rw [joinSegs]
    exact splitOnSep_sepFree (hv s (List.mem_singleton.mpr rfl))
  | s :: s' :: ss, _, hv => by
    rw [joinSegs, splitOnSep_append_sep (hv s (List.mem_cons_self _ _)),
      splitOnSep_joinSegs (s' :: ss) (by simp) (fun t ht => hv t (List.mem_cons_of_mem s ht))]

theorem segsOf_renderAbs {segs : List (List Char)} (h : ∀ s ∈ segs, GoodSeg s) :
    segsOf (renderAbs segs) = segs := by
  unfold segsOf renderAbs
  cases segs with
  | nil => decide
  | cons s ss =>
    have h1 : splitOnSep (sep :: joinSegs (s :: ss)) = [] :: splitOnSep (joinSegs (s :: ss)) := by
      simp [splitOnSep]
    rw [h1, splitOnSep_joinSegs (s :: ss) (by simp) (fun t ht => (h t ht).2.1)]
    unfold normSegs
    rw [List.foldl_cons]
    have h2 : segStep [] [] = [] := by unfold segStep; simp
    rw [h2, foldl_segStep_good (s :: ss) [] (fun t ht => ⟨(h t ht).1, (h t ht).2.2.1, (h t ht).2.2.2⟩)]
    simp

theorem resolveAbs_renderAbs {segs : List (List Char)} (h : ∀ s ∈ segs, GoodSeg s) :
    resolveAbs (renderAbs segs) = renderAbs segs := by
  unfold resolveAbs
  rw [segsOf_renderAbs h]

theorem append_sep_cons_prefix_iff :
    ∀ {x y : List Char}, sep ∉ x → sep ∉ y → ∀ (u v : List Char),
      ((x ++ sep :: u) <+: (y ++ sep :: v) ↔ (x = y ∧ u <+: v)) := by
  intro x
  induction x with
  | nil =>
    intro y hx hy u v
    cases y with
    | nil => simp [List.cons_prefix_cons]
    | cons d y' =>
      have hd : sep ≠ d := fun hh => hy (hh ▸ List.mem_cons_self d y')
      constructor
      · intro hpre
        rw [List.nil_append, List.cons_append, List.cons_prefix_cons] at hpre
        exact absurd hpre.1 hd
      · rintro ⟨h, _⟩
        exact absurd h (by simp)
  | cons c x' ih =>
    intro y hx hy u v
    have hx' : sep ∉ x' := fun hh => hx (List.mem_cons_of_mem c hh)
    have hc : c ≠ sep := fun hh => hx (hh ▸ List.mem_cons_self c x')
    cases y with
    | nil =>
      constructor
      · intro hpre
        rw [List.nil_append, List.cons_append, List.cons_prefix_cons] at hpre
        exact absurd hpre.1 hc
      · rintro ⟨h, _⟩
        exact absurd h (by simp)
    | cons d y' =>
      have hy' : sep ∉ y' := fun hh => hy (List.mem_cons_of_mem d hh)
      rw [List.cons_append, List.cons_append, List.cons_prefix_cons, ih hx' hy' u v]
      constructor
      · rintro ⟨rfl, rfl, h⟩
        exact ⟨rfl, h⟩
      · rintro ⟨h, h2⟩
        rcases List.cons.injEq _ _ _ _ ▸ h with ⟨rfl, rfl⟩
        exact ⟨rfl, rfl, h2⟩

theorem append_sep_cons_eq :
    ∀ {x y : List Char}, sep ∉ x → sep ∉ y → ∀ (u v : List Char),
      ((x ++ sep :: u) = (y ++ sep :: v) ↔ (x = y ∧ u = v)) := by
  intro x
  induction x with
  | nil =>
    intro y hx hy u v
    cases y with
    | nil => simp
    | cons d y' =>
      have hd : sep ≠ d := fun hh => hy (hh ▸ List.mem_cons_self d y')
      simp only [List.nil_append, List.cons_append, List.cons.injEq]
      constructor
      · rintro ⟨h, _⟩
        exact absurd h hd
      · rintro ⟨h, _⟩
        exact absurd h (by simp)
  | cons c x' ih =>
    intro y hx hy u v
    have hx' : sep ∉ x' := fun hh => hx (List.mem_cons_of_mem c hh)
    have hc : c ≠ sep := fun hh => hx (hh ▸ List.mem_cons_self c x')
    cases y with
    | nil =>
      simp only [List.nil_append, List.cons_append, List.cons.injEq]
      constructor
      · rintro ⟨h, _⟩
        exact absurd h hc
      · rintro ⟨h, _⟩
        exact absurd h (by simp)
    | cons d y' =>
      have hy' : sep ∉ y' := fun hh => hy (List.mem_cons_of_mem d hh)
      rw [List.cons_append, List.cons_append, List.cons.injEq, ih hx' hy' u v]
      constructor
      · rintro ⟨rfl, rfl, h⟩
        exact ⟨rfl, h⟩
      · rintro ⟨h, h2⟩
        rcases List.cons.injEq _ _ _ _ ▸ h with ⟨rfl, rfl⟩
        exact ⟨rfl, rfl, h2⟩

theorem joinSegs_eq_iff :
    ∀ (xs ys : List (List Char)), (∀ s ∈ xs, GoodSeg s) → (∀ s ∈ ys, GoodSeg s) →
      (joinSegs xs = joinSegs ys ↔ xs = ys)
  | [], [], _, _ => by simp
  | [], y :: ys, _, hy => by
    rw [joinSegs]
    cases ys with
    | nil =>
      rw [joinSegs]
      simp [Ne.symm (hy y (by simp)).1]
    | cons y' ys' =>
      rw [joinSegs]
      constructor
      · intro h
        exact absurd h.symm (by simp)
      · intro h
        exact absurd h (by simp)
  | x :: xs, [], hx, _ => by
    rw [joinSegs]
    cases xs with
    | nil =>
      rw [joinSegs]
      simp [(hx x (by simp)).1]
    | cons x' xs' =>
      rw [joinSegs]
      constructor
      · intro h
        exact absurd h (by simp)
      · intro h
        exact absurd h (by simp)
  | [x], [y], _, _ => by
    rw [joinSegs, joinSegs]
    simp
  | [x], y :: y' :: ys, hx, hy => by
    rw [joinSegs, joinSegs]
    constructor
    · intro h
      have : sep ∈ x := h ▸ (by simp : sep ∈ y ++ sep :: joinSegs (y' :: ys))
      exact absurd this (hx x (by simp)).2.1
    · intro h
      exact absurd h (by simp)
  | x :: x' :: xs, [y], hx, hy => by
    rw [joinSegs, joinSegs]
    constructor
    · intro h
      have : sep ∈ y := h ▸ (by simp : sep ∈ x ++ sep :: joinSegs (x' :: xs))
      exact absurd this (hy y (by simp)).2.1
    · intro h
      exact absurd h (by simp)
  | x :: x' :: xs, y :: y' :: ys, hx, hy => by
    rw [joinSegs, joinSegs,
      append_sep_cons_eq (hx x (by simp)).2.1 (hy y (by simp)).2.1,
      joinSegs_eq_iff (x' :: xs) (y' :: ys) (fun s hs => hx s (by simp [hs]))
        (fun s hs => hy s (by simp [hs]))]
    simp

theorem joinSegs_prefix_iff :
    ∀ (xs ys : List (List Char)), (∀ s ∈ xs, GoodSeg s) → (∀ s ∈ ys, GoodSeg s) →
      ((joinSegs xs ++ [sep]) <+: joinSegs ys ↔ (xs ≠ [] ∧ xs <+: ys ∧ xs ≠ ys))
  | [], ys, _, hy => by
    simp only [joinSegs, List.nil_append, ne_eq, not_true_eq_false, false_and, iff_false]
    intro hpre
    cases ys with
    | nil =>
      rw [joinSegs] at hpre
      simp at hpre
    | cons y ys' =>
      cases ys' with
      | nil =>
        rw [joinSegs] at hpre
        exact absurd (hpre.subset (by simp)) (hy y (by simp)).2.1
      | cons y' ys'' =>
        rw [joinSegs] at hpre
        obtain ⟨c, y₀, rfl⟩ := List.exists_cons_of_ne_nil (hy (y) (by simp)).1
        rw [List.cons_append, List.cons_prefix_cons] at hpre
        exact absurd (hpre.1 ▸ List.mem_cons_self c y₀) (hy (c :: y₀) (by simp)).2.1
  | x :: xs, [], hx, _ => by
    rw [joinSegs]
    constructor
    · intro hpre
      have := List.prefix_nil.mp hpre
      simp at this
    · rintro ⟨_, hp, _⟩
      have := List.prefix_nil.mp hp
      simp at this
  | [x], [y], hx, hy => by
    rw [joinSegs, joinSegs]
    constructor
    · intro hpre
      exact absurd (hpre.subset (by simp)) (hy y (by simp)).2.1
    · rintro ⟨_, hp, hne⟩
      rw [List.cons_prefix_cons] at hp
      exact (hne (by simp [hp.1])).elim
  | [x], y :: y' :: ys, hx, hy => by
    rw [joinSegs, joinSegs]
    have h1 : x ++ [sep] = x ++ sep :: ([] : List Char) := rfl
    rw [h1, append_sep_cons_prefix_iff (hx x (by simp)).2.1 (hy y (by simp)).2.1]
    simp [List.cons_prefix_cons]
  | x :: x' :: xs, [y], hx, hy => by
    rw [joinSegs, joinSegs]
    constructor
    · intro hpre
      exact absurd (hpre.subset (by simp)) (hy y (by simp)).2.1
    · rintro ⟨_, hp, _⟩
      rw [List.cons_prefix_cons] at hp
      have := List.prefix_nil.mp hp.2
      simp at this
  | x :: x' :: xs, y :: y' :: ys, hx, hy => by
    rw [joinSegs, joinSegs, List.append_assoc, List.cons_append,
      append_sep_cons_prefix_iff (hx x (by simp)).2.1 (hy y (by simp)).2.1,
      joinSegs_prefix_iff (x' :: xs) (y' :: ys) (fun s hs => hx s (by simp [hs]))
        (fun s hs => hy s (by simp [hs]))]
    constructor
    · rintro ⟨rfl, _, h2, h3⟩
      refine ⟨by simp, List.cons_prefix_cons.mpr ⟨rfl, h2⟩, ?_⟩
      intro hh
      rcases List.cons.injEq _ _ _ _ ▸ hh with ⟨_, h5⟩
      exact h3 h5
    · rintro ⟨_, hp, hne⟩
      rw [List.cons_prefix_cons] at hp
      refine ⟨hp.1, by simp, hp.2, ?_⟩
      intro hh
      exact hne (by rw [hp.1, hh])

theorem isWithinRoot_iff (R P : List Char) :
    isWithinRoot R P = true ↔
      (segsOf P = segsOf R ∨
        (segsOf R ≠ [] ∧ segsOf R <+: segsOf P ∧ segsOf R ≠ segsOf P)) := by
  have hr := goodSeg_segsOf R
  have hp := goodSeg_segsOf P
  unfold isWithinRoot normalize resolveAbs
  rw [Bool.or_eq_true, beq_iff_eq, List.isPrefixOf_iff_prefix]
  unfold renderAbs
  rw [List.cons_append, List.cons_prefix_cons]
  constructor
  · rintro (h | ⟨_, h⟩)
    · exact Or.inl ((joinSegs_eq_iff _ _ hp hr).mp (List.cons.injEq _ _ _ _ ▸ h).2)
    · exact Or.inr ((joinSegs_prefix_iff _ _ hr hp).mp h)
  · rintro (h | h)
    · exact Or.inl (by rw [(joinSegs_eq_iff _ _ hp hr).mpr h])
    · exact Or.inr ⟨rfl, (joinSegs_prefix_iff _ _ hr hp).mpr h⟩

theorem foldl_segStep_replicate :
    ∀ (n : Nat) (acc : List (List Char)),
      List.foldl segStep acc (List.replicate n (str "..")) = (List.dropLast)^[n] acc := by
  intro n
  induction n with
  | zero => intro acc; rfl
  | succ m ih =>
    intro acc
    rw [List.replicate_succ, List.foldl_cons]
    have hstep : segStep acc (str "..") = acc.dropLast := by
      unfold segStep
      rw [if_neg (by simp [str]), if_pos rfl]
    rw [hstep, ih, Function.iterate_succ_apply]

theorem length_iterate_dropLast {α : Type} :
    ∀ (n : Nat) (l : List α), ((List.dropLast)^[n] l).length = l.length - n := by
  intro n
  induction n with
  | zero => intro l; rfl
  | succ m ih =>
    intro l
    rw [Function.iterate_succ_apply, ih, List.length_dropLast]
    omega

theorem splitOnSep_joinSegs_append :
    ∀ (rs : List (List Char)), rs ≠ [] → (∀ s ∈ rs, sep ∉ s) → ∀ (t : List Char),
      splitOnSep (joinSegs rs ++ sep :: t) = rs ++ splitOnSep t
  | [], h, _, _ => absurd rfl h
  | [s], _, hv, t => by
    rw [joinSegs, splitOnSep_append_sep (hv s (by simp)) t]
    rfl
  | s :: s' :: ss, _, hv, t => by
    rw [joinSegs, List.append_assoc, List.cons_append,
      splitOnSep_append_sep (hv s (by simp)),
      splitOnSep_joinSegs_append (s' :: ss) (by simp) (fun u hu => hv u (by simp [hu])) t]
    rfl

theorem dotDots_not_absolute (k : Nat) : isAbsolute (dotDots (k + 1)) = false := by
  cases k with
  | zero => decide
  | succ m =>
    show isAbsolute (joinSegs (List.replicate (m + 2) (str ".."))) = false
    rw [List.replicate_succ, List.replicate_succ, joinSegs]
    simp [isAbsolute, str, sep]

theorem iterate_dropLast_nil {α : Type} (n : Nat) :
    (List.dropLast)^[n] ([] : List α) = [] := by
  induction n with
  | zero => rfl
  | succ m ih => rw [Function.iterate_succ_apply, List.dropLast_nil, ih]

theorem iterate_dropLast_prefix_self {α : Type} (n : Nat) (l : List α) :
    (List.dropLast)^[n] l <+: l := by
  induction n with
  | zero => exact List.prefix_rfl
  | succ m ih =>
    rw [Function.iterate_succ_apply']
    exact (List.dropLast_prefix _).trans ih

theorem segsOf_render_append_dotDots (rs : List (List Char))
    (hr : ∀ s ∈ rs, GoodSeg s) (k : Nat) :
    segsOf (renderAbs rs ++ sep :: dotDots (k + 1)) = (List.dropLast)^[k + 1] rs := by
  have hdd : splitOnSep (dotDots (k + 1)) = List.replicate (k + 1) (str "..") := by
    unfold dotDots
    exact splitOnSep_joinSegs _ (by simp)
      (by intro s hs; rw [List.eq_of_mem_replicate hs]; simp [str, sep])
  unfold renderAbs
  rw [List.cons_append]
  show normSegs (splitOnSep (sep :: (joinSegs rs ++ sep :: dotDots (k + 1))))
      = (List.dropLast)^[k + 1] rs
  have hsplit1 : splitOnSep (sep :: (joinSegs rs ++ sep :: dotDots (k + 1)))
      = [] :: splitOnSep (joinSegs rs ++ sep :: dotDots (k + 1)) := by
    simp [splitOnSep]
  rw [hsplit1]
  cases rs with
  | nil =>
    rw [joinSegs, List.nil_append]
    have h2 : splitOnSep (sep :: dotDots (k + 1)) = [] :: splitOnSep (dotDots (k + 1)) := by
      simp [splitOnSep]
    rw [h2, hdd]
    unfold normSegs
    rw [List.foldl_cons, List.foldl_cons]
    have hnil : segStep [] [] = [] := by unfold segStep; simp
    rw [hnil, hnil, foldl_segStep_replicate, iterate_dropLast_nil]
  | cons s ss =>
    rw [splitOnSep_joinSegs_append (s :: ss) (by simp) (fun u hu => (hr u hu).2.1), hdd]
    unfold normSegs
    rw [List.foldl_cons]
    have hnil : segStep [] [] = [] := by unfold segStep; simp
    rw [hnil, List.foldl_append,
      foldl_segStep_good (s :: ss) [] (fun u hu => ⟨(hr u hu).1, (hr u hu).2.2.1, (hr u hu).2.2.2⟩),
      List.nil_append, foldl_segStep_replicate]

theorem segsOf_resolveFrom_dotDots (R : List Char) (k : Nat) :
    segsOf (resolveFrom (renderAbs (segsOf R)) (dotDots (k + 1)))
      = (List.dropLast)^[k + 1] (segsOf R) := by
  have hr := goodSeg_segsOf R
  rw [resolveFrom, dotDots_not_absolute k, if_neg (by simp)]
  show segsOf (renderAbs (segsOf (renderAbs (segsOf R) ++ sep :: dotDots (k + 1))))
      = (List.dropLast)^[k + 1] (segsOf R)
  rw [segsOf_render_append_dotDots (segsOf R) hr k, segsOf_renderAbs]
  intro s hs
  exact hr s ((iterate_dropLast_prefix_self (k + 1) (segsOf R)).subset hs)

theorem resolveInsideWorkspace_dotDots (realpathFn : List Char → Option (List Char))
    (R : List Char) (k : Nat) (h : segsOf R ≠ []) :
    resolveInsideWorkspace realpathFn R (dotDots (k + 1)) false
      = .error (.pathOutside (renderAbs ((List.dropLast)^[k + 1] (segsOf R)))
          (renderAbs (segsOf R))) := by
  have hr := goodSeg_segsOf R
  have hp : ∀ s ∈ (List.dropLast)^[k + 1] (segsOf R), GoodSeg s :=
    fun s hs => hr s ((iterate_dropLast_prefix_self _ _).subset hs)
  have hlen : ((List.dropLast)^[k + 1] (segsOf R)).length < (segsOf R).length := by
    rw [length_iterate_dropLast]
    have h0 : (segsOf R).length ≠ 0 := by
      simpa [List.length_eq_zero] using h
    omega
  have hjoined : normalize (resolveFrom (normalize R) (dotDots (k + 1)))
      = renderAbs ((List.dropLast)^[k + 1] (segsOf R)) := by
    show renderAbs (segsOf (resolveFrom (renderAbs (segsOf R)) (dotDots (k + 1)))) = _
    rw [segsOf_resolveFrom_dotDots R k]
  have hRsegs : segsOf (normalize R) = segsOf R := segsOf_renderAbs hr
  have hwithin :
      isWithinRoot (normalize R) (normalize (resolveFrom (normalize R) (dotDots (k + 1)))) = false := by
    rw [hjoined, Bool.eq_false_iff]
    intro htrue
    rcases (isWithinRoot_iff _ _).mp htrue with heq | ⟨_, hpre, _⟩
    · rw [segsOf_renderAbs hp, hRsegs] at heq
      have := congrArg List.length heq
      omega
    · rw [segsOf_renderAbs hp, hRsegs] at hpre
      have := hpre.length_le
      omega
  simp only [resolveInsideWorkspace]
  rw [hwithin]
  simp only [Bool.false_eq_true, not_false_eq_true, if_true, hjoined]
  rfl

theorem mem_insertLe {α : Type} (le : α → α → Bool) (x a : α) :
    ∀ (l : List α), a ∈ insertLe le x l ↔ a = x ∨ a ∈ l
  | [] => by simp [insertLe]
  | y :: ys => by
    unfold insertLe
    by_cases h : le x y = true
    · rw [if_pos h]
      simp
    · rw [if_neg h]
      rw [List.mem_cons, mem_insertLe le x a ys, List.mem_cons]
      tauto

theorem mem_sortLe {α : Type} (le : α → α → Bool) (a : α) :
    ∀ (l : List α), a ∈ sortLe le l ↔ a ∈ l
  | [] => Iff.rfl
  | x :: xs => by
    unfold sortLe
    rw [mem_insertLe, mem_sortLe le a xs, List.mem_cons]

theorem walkEntry_eq_some {fs : WalkFS} {rootPath absDir : List Char}
    {childrenOf : List Char → Option (List FileNode)} {e : DirEnt} {node : FileNode}
    (h : walkEntry fs rootPath absDir childrenOf e = some node) :
    node.name = e.name ∧
      (fs.lstatIsSymlink (childPath absDir e.name) = true →
        ∃ r, fs.realpathF (childPath absDir e.name) = some r ∧
          isWithinRoot rootPath r = true) := by
  unfold walkEntry at h
  by_cases h1 : e.name = str "." ∨ e.name = str ".."
  · rw [if_pos h1] at h
    exact absurd h (by simp)
  rw [if_neg h1] at h
  by_cases h2 : e.name ∈ IGNORED_DIRS
  · rw [if_pos h2] at h
    exact absurd h (by simp)
  rw [if_neg h2] at h
  simp only [] at h
  by_cases h3 : fs.lstatIsSymlink (childPath absDir e.name) = true
  · rw [if_pos h3] at h
    cases hre : fs.realpathF (childPath absDir e.name) with
    | none =>
      rw [hre] at h
      simp at h
    | some r =>
      rw [hre] at h
      have hmatch : (match some r with
          | none => true
          | some resolved => ! isWithinRoot rootPath resolved) = ! isWithinRoot rootPath r := rfl
      rw [hmatch] at h
      by_cases h4 : isWithinRoot rootPath r = true
      · rw [h4] at h
        simp only [Bool.not_true, Bool.false_eq_true, if_false] at h
        refine ⟨?_, fun _ => ⟨r, rfl, h4⟩⟩
        by_cases h5 : e.isDirectoryD = true
        · rw [if_pos h5] at h
          cases h
          rfl
        · rw [if_neg h5] at h
          by_cases h6 : e.isFileD = true
          · rw [if_pos h6] at h
            cases h
            rfl
          · rw [if_neg h6] at h
            exact absurd h (by simp)
      · rw [Bool.eq_false_iff.mpr h4] at h
        simp at h
  · rw [if_neg h3] at h
    refine ⟨?_, fun hc => absurd hc h3⟩
    by_cases h5 : e.isDirectoryD = true
    · rw [if_pos h5] at h
      cases h
      rfl
    · rw [if_neg h5] at h
      by_cases h6 : e.isFileD = true
      · rw [if_pos h6] at h
        cases h
        rfl
      · rw [if_neg h6] at h
        exact absurd h (by simp)

theorem walkLevel_excludes_escaping_symlinks (fs : WalkFS) (rootPath : List Char)
    (childrenOf : List Char → Option (List FileNode)) (absDir : List Char)
    (node : FileNode) (h : node ∈ walkLevel fs rootPath childrenOf absDir) :
    ∃ e ∈ fs.readdir absDir, node.name = e.name ∧
      (fs.lstatIsSymlink (childPath absDir e.name) = true →
        ∃ r, fs.realpathF (childPath absDir e.name) = some r ∧
          isWithinRoot rootPath r = true) := by
  unfold walkLevel sortNodes at h
  rw [mem_sortLe] at h
  rcases List.mem_filterMap.mp h with ⟨e, he, hsome⟩
  exact ⟨e, he, walkEntry_eq_some hsome⟩

theorem walk_excludes_escaping_symlinks (fs : WalkFS) (rootPath : List Char)
    (depth : Nat) (absDir : List Char) (node : FileNode)
    (h : node ∈ walk fs rootPath depth absDir) :
    ∃ e ∈ fs.readdir absDir, node.name = e.name ∧
      (fs.lstatIsSymlink (childPath absDir e.name) = true →
        ∃ r, fs.realpathF (childPath absDir e.name) = some r ∧
          isWithinRoot rootPath r = true) := by
  match depth with
  | 0 => exact walkLevel_excludes_escaping_symlinks fs rootPath _ absDir node h
  | 1 => exact walkLevel_excludes_escaping_symlinks fs rootPath _ absDir node h
  | d + 2 => exact walkLevel_excludes_escaping_symlinks fs rootPath _ absDir node h

theorem resolveInsideWorkspace_symlink_escape (realpathFn : List Char → Option (List Char))
    (R rel real : List Char)
    (hin : isWithinRoot (normalize R) (normalize (resolveFrom (normalize R) rel)) = true)
    (hreal : realpathFn (normalize (resolveFrom (normalize R) rel)) = some real)
    (hout : isWithinRoot (normalize R) real = false) :
    resolveInsideWorkspace realpathFn R rel true = .error (.pathOutside real (normalize R)) := by
  simp only [resolveInsideWorkspace]
  rw [hin]
  simp only [not_true_eq_false, if_false, if_true, hreal]
  rw [hout]
  simp

theorem lookup_eraseKey_ne {β : Type} {q p : List Char} (h : q ≠ p) :
    ∀ (l : List (List Char × β)), (eraseKey p l).lookup q = l.lookup q
  | [] => rfl
  | (k, v) :: t => by
    show (List.filter _ ((k, v) :: t)).lookup q = _
    rw [List.filter_cons]
    by_cases hk : k = p
    · rw [if_neg (by simp [hk])]
      show (eraseKey p t).lookup q = _
      rw [lookup_eraseKey_ne h t, List.lookup_cons]
      have hqk : (q == k) = false := by simp [hk, h]
      rw [hqk]
    · rw [if_pos (by simp [hk])]
      show List.lookup q ((k, v) :: eraseKey p t) = _
      rw [List.lookup_cons, List.lookup_cons]
      cases hqk : (q == k) with
      | true => rfl
      | false =>
        show (eraseKey p t).lookup q = t.lookup q
        exact lookup_eraseKey_ne h t

theorem FS.read_mkdir (st : FS) (d q : List Char) :
    (st.applyOp (.mkdirRec d)).read q = st.read q := rfl

theorem FS.read_writeF_self (st : FS) (p c : List Char) :
    (st.applyOp (.writeF p c)).read p = some c := by
  show List.lookup p ((p, c) :: eraseKey p st.files) = some c
  rw [List.lookup_cons]
  simp

theorem FS.read_writeF_ne (st : FS) (p c q : List Char) (h : q ≠ p) :
    (st.applyOp (.writeF p c)).read q = st.read q := by
  show List.lookup q ((p, c) :: eraseKey p st.files) = st.read q
  rw [List.lookup_cons]
  have hqp : (q == p) = false := by simp [h]
  rw [hqp]
  exact lookup_eraseKey_ne h st.files

theorem FS.read_rename_dst (st : FS) (src dst c : List Char) (h : st.read src = some c) :
    (st.applyOp (.renameF src dst)).read dst = some c := by
  show ((match st.files.lookup src with
    | none => st
    | some c => { st with files := (dst, c) :: eraseKey dst (eraseKey src st.files) }) : FS).read dst
      = some c
  rw [show st.files.lookup src = some c from h]
  show List.lookup dst ((dst, c) :: _) = some c
  rw [List.lookup_cons]
  simp

theorem FS.read_rename_ne (st : FS) (src dst q : List Char) (h1 : q ≠ src) (h2 : q ≠ dst) :
    (st.applyOp (.renameF src dst)).read q = st.read q := by
  show ((match st.files.lookup src with
    | none => st
    | some c => { st with files := (dst, c) :: eraseKey dst (eraseKey src st.files) }) : FS).read q
      = st.read q
  cases hs : st.files.lookup src with
  | none => rfl
  | some c =>
    show List.lookup q ((dst, c) :: eraseKey dst (eraseKey src st.files)) = st.read q
    rw [List.lookup_cons]
    have hqd : (q == dst) = false := by simp [h2]
    rw [hqd]
    rw [lookup_eraseKey_ne h2 (eraseKey src st.files)]
    exact lookup_eraseKey_ne h1 st.files

theorem resolveOk_false_elim {realpathFn : List Char → Option (List Char)} {R rel p : List Char}
    (h : resolveInsideWorkspace realpathFn R rel false = .ok p) :
    p = normalize (resolveFrom (normalize R) rel)
      ∧ isWithinRoot (normalize R) p = true := by
  simp only [resolveInsideWorkspace, Bool.false_eq_true, reduceIte] at h
  split at h
  · exact absurd h (by simp)
  next hin =>
    split at h
    · exact absurd h (by simp)
    · split at h
      · exact absurd h (by simp)
      · cases h
        exact ⟨rfl, Decidable.not_not.mp hin⟩

theorem writeFile_hashMismatch {hash : List Char → List Char} {w : WorkspaceMeta} {st : FS}
    {rel content e : List Char} {now rand : Nat} {absPath old : List Char}
    (hres : resolveInsideWorkspace st.realpathNoLinks w.rootPath rel false = .ok absPath)
    (hold : st.read absPath = some old)
    (he : e ≠ []) (hne : hash old ≠ e) :
    writeFile hash (some w) st rel content (some e) now rand
      = (errRes .HASH_MISMATCH (str "File content hash mismatch. Reload and retry apply.")
          (.hashMismatch rel e (hash old)), []) := by
  simp only [writeFile, hres, hold, Option.isSome_some, Option.getD_some]
  simp [he, hne]

theorem writeFile_ok_existing {hash : List Char → List Char} {w : WorkspaceMeta} {st : FS}
    {rel content : List Char} {expected : Option (List Char)} {now rand : Nat}
    {absPath old : List Char}
    (hres : resolveInsideWorkspace st.realpathNoLinks w.rootPath rel false = .ok absPath)
    (hold : st.read absPath = some old)
    (hpre : ∀ e, expected = some e → e = [] ∨ hash old = e) :
    writeFile hash (some w) st rel content expected now rand
      = (.ok (), [.mkdirRec (dirname absPath),
          .mkdirRec (dirname (backupPathOf w.rootPath rel now)),
          .writeF (backupPathOf w.rootPath rel now) old,
          .writeF (tmpPathOf absPath now rand) content,
          .renameF (tmpPathOf absPath now rand) absPath]) := by
  simp only [writeFile, hres, hold, Option.isSome_some, Option.getD_some]
  cases expected with
  | none => simp
  | some e =>
    rcases hpre e rfl with he | hm
    · simp [he]
    · by_cases he0 : e = []
      · simp [he0]
      · simp [he0, hm]

theorem writeFile_ok_new {hash : List Char → List Char} {w : WorkspaceMeta} {st : FS}
    {rel content : List Char} {expected : Option (List Char)} {now rand : Nat}
    {absPath : List Char}
    (hres : resolveInsideWorkspace st.realpathNoLinks w.rootPath rel false = .ok absPath)
    (hnone : st.read absPath = none) :
    writeFile hash (some w) st rel content expected now rand
      = (.ok (), [.mkdirRec (dirname absPath),
          .writeF (tmpPathOf absPath now rand) content,
          .renameF (tmpPathOf absPath now rand) absPath]) := by
  simp only [writeFile, hres, hnone, Option.isSome_none, Option.getD_none]
  cases expected with
  | none => simp
  | some e => simp

theorem readFile_of_read_some {hash : List Char → List Char} {w : WorkspaceMeta} {st' : FS}
    {rel absPath content : List Char}
    (hjw : absPath = normalize (resolveFrom (normalize w.rootPath) rel))
    (hwin : isWithinRoot (normalize w.rootPath) absPath = true)
    (hread : st'.read absPath = some content) :
    readFile hash (some w) st' rel = .ok ⟨content, str "utf-8", hash content⟩ := by
  have hex : st'.pathExists absPath = true := by
    unfold FS.pathExists
    rw [show st'.files.lookup absPath = some content from hread]
    simp
  have hrp : st'.realpathNoLinks absPath = some absPath := by
    unfold FS.realpathNoLinks
    rw [hex]
    simp
  have hres : resolveInsideWorkspace st'.realpathNoLinks w.rootPath rel true = .ok absPath := by
    simp only [resolveInsideWorkspace]
    rw [← hjw, hwin]
    simp only [not_true_eq_false, if_false, Bool.false_eq_true, reduceIte, if_true, hrp, hwin]
  simp only [readFile, hres, hread]

/-- Evaluating a five-operation trace is nested operation application. -/
theorem applyOps_five (st : FS) (a b c d e : FSOp) :
    st.applyOps [a, b, c, d, e]
      = ((((st.applyOp a).applyOp b).applyOp c).applyOp d).applyOp e := rfl

/-- Evaluating a three-operation trace is nested operation application. -/
theorem applyOps_three (st : FS) (a b c : FSOp) :
    st.applyOps [a, b, c] = ((st.applyOp a).applyOp b).applyOp c := rfl

/-- After writing the temporary file and renaming it onto the target, the
target holds the new content. -/
theorem read_after_tmp_rename (st' : FS) (tmp abs content : List Char) :
    ((st'.applyOp (.writeF tmp content)).applyOp (.renameF tmp abs)).read abs = some content :=
  FS.read_rename_dst _ tmp abs content (FS.read_writeF_self st' tmp content)

theorem joinSegs_append :
    ∀ (xs ys : List (List Char)), xs ≠ [] → ys ≠ [] →
      joinSegs (xs ++ ys) = joinSegs xs ++ sep :: joinSegs ys
  | [], _, hx, _ => absurd rfl hx
  | [x], ys, _, hy => by
    cases ys with
    | nil => exact absurd rfl hy
    | cons y ys' =>
      rw [List.singleton_append, joinSegs, joinSegs]
  | x :: x' :: xs, ys, _, hy => by
    have hih := joinSegs_append (x' :: xs) ys (by simp) hy
    simp only [List.cons_append] at hih ⊢
    rw [joinSegs, joinSegs, hih]
    simp

theorem tmpPathOf_ne (absPath : List Char) (now rand : Nat) :
    tmpPathOf absPath now rand ≠ absPath := by
  intro h
  have hlen := congrArg List.length h
  simp [tmpPathOf, str] at hlen

theorem pathJoin_prefix_of_clean (bs : List (List Char)) (rel : List Char)
    (hbs : ∀ s ∈ bs, GoodSeg s) (hbne : bs ≠ [])
    (hrel : ∀ s ∈ splitOnSep rel, GoodSeg s) :
    (renderAbs bs ++ [sep]) <+: pathJoin (renderAbs bs) rel := by
  have hsne : splitOnSep rel ≠ [] := splitOnSep_ne_nil rel
  have hsegs : segsOf (renderAbs bs ++ sep :: rel) = bs ++ splitOnSep rel := by
    unfold renderAbs
    rw [List.cons_append]
    show normSegs (splitOnSep (sep :: (joinSegs bs ++ sep :: rel))) = bs ++ splitOnSep rel
    have h1 : splitOnSep (sep :: (joinSegs bs ++ sep :: rel))
        = [] :: splitOnSep (joinSegs bs ++ sep :: rel) := by
      simp [splitOnSep]
    rw [h1, splitOnSep_joinSegs_append bs hbne (fun s hs => (hbs s hs).2.1) rel]
    unfold normSegs
    rw [List.foldl_cons]
    have hnil : segStep [] [] = [] := by unfold segStep; simp
    rw [hnil]
    exact foldl_segStep_good (bs ++ splitOnSep rel) []
      (by
        intro s hs
        rcases List.mem_append.mp hs with h | h
        · exact ⟨(hbs s h).1, (hbs s h).2.2.1, (hbs s h).2.2.2⟩
        · exact ⟨(hrel s h).1, (hrel s h).2.2.1, (hrel s h).2.2.2⟩)
  show (renderAbs bs ++ [sep]) <+: renderAbs (segsOf (renderAbs bs ++ sep :: rel))
  rw [hsegs]
  unfold renderAbs
  rw [joinSegs_append bs (splitOnSep rel) hbne hsne, List.cons_append]
  refine List.cons_prefix_cons.mpr ⟨rfl, ?_⟩
  have hsplit : joinSegs bs ++ sep :: joinSegs (splitOnSep rel)
      = (joinSegs bs ++ [sep]) ++ joinSegs (splitOnSep rel) := by simp
  rw [hsplit]
  exact List.prefix_append _ _

/-- The successful `runCommand` path: confirmation given, proposal found,
workspace open and cwd still contained. -/
theorem runCommand_ok (w : WorkspaceMeta) (proposals : ProposalMap)
    (proposalId runId startedAt : List Char) (record : ProposalRecord)
    (hlook : proposals.lookup proposalId = some record)
    (hin : isWithinRoot w.rootPath record.absCwd = true) :
    runCommand (some w) proposals proposalId true runId startedAt
      = (.ok ⟨runId, proposalId, startedAt⟩,
        (proposalId, { record with proposal := { record.proposal with decision := .approved } })
          :: eraseKey proposalId proposals,
        [DBOp.saveCommandRun runId record.proposal.sessionId],
        [SpawnEvent.spawn record.proposal.command record.absCwd]) := by
  simp only [runCommand, hlook, hin, Bool.not_true, Bool.false_eq_true, reduceIte,
    not_true_eq_false]

theorem lookup_eraseKey_self {β : Type} (p : List Char) :
    ∀ (l : List (List Char × β)), (eraseKey p l).lookup p = none
  | [] => rfl
  | (k, v) :: t => by
    show (List.filter _ ((k, v) :: t)).lookup p = none
    rw [List.filter_cons]
    by_cases hk : k = p
    · rw [if_neg (by simp [hk])]
      exact lookup_eraseKey_self p t
    · rw [if_pos (by simp [hk])]
      show List.lookup p ((k, v) :: eraseKey p t) = none
      rw [List.lookup_cons]
      have : (p == k) = false := by simp [Ne.symm hk]
      rw [this]
      exact lookup_eraseKey_self p t

/-- Every failing `writeFile` returns an empty operation trace: each error
return happens before the first filesystem mutation. -/
theorem writeFile_error_trace_nil (hash : List Char → List Char) (ws : Option WorkspaceMeta)
    (st : FS) (rel content : List Char) (expected : Option (List Char)) (now rand : Nat) :
    ∀ {e : AppError} {ops : List FSOp},
      writeFile hash ws st rel content expected now rand = (.error e, ops) → ops = [] := by
  intro e ops h
  unfold writeFile at h
  split at h
  · cases h
    rfl
  · split at h
    · cases h
      rfl
    · simp only [] at h
      split at h
      · split at h
        · split at h
          · cases h
            rfl
          · simp at h
        · simp at h
      · simp at h

theorem applyLoop_append (hash : List Char → List Char) (ws : Option WorkspaceMeta)
    (ticks : Nat → Nat × Nat) :
    ∀ (before rest : List FilePatch) (i : Nat) (st : FS)
      (sel applied skipped : List (List Char))
      {st' : FS} {applied' skipped' : List (List Char)} {i' : Nat},
      applyLoop hash ws ticks i st before sel applied skipped
        = (none, st', applied', skipped', i') →
      applyLoop hash ws ticks i st (before ++ rest) sel applied skipped
        = applyLoop hash ws ticks i' st' rest sel applied' skipped'
  | [], rest, i, st, sel, applied, skipped, st', applied', skipped', i', h => by
    rw [applyLoop] at h
    injection h with h1 h2
    injection h2 with h2 h3
    injection h3 with h3 h4
    injection h4 with h4 h5
    subst h2
    subst h3
    subst h4
    subst h5
    rfl
  | p :: before', rest, i, st, sel, applied, skipped, st', applied', skipped', i', h => by
    rw [applyLoop] at h
    rw [List.cons_append, applyLoop]
    by_cases hm : p.path ∈ sel
    · rw [if_neg (Decidable.not_not.mpr hm)] at h ⊢
      split at h
      · simp at h
      next u ops0 heq =>
        exact applyLoop_append hash ws ticks before' rest (i + 1) (st.applyOps ops0) sel
          (applied ++ [p.path]) skipped h
    · rw [if_pos hm] at h ⊢
      exact applyLoop_append hash ws ticks before' rest i st sel applied
        (skipped ++ [p.path]) h

theorem applyLoop_fail_step (hash : List Char → List Char) (ws : Option WorkspaceMeta)
    (ticks : Nat → Nat × Nat) (i : Nat) (st : FS) (p : FilePatch) (rest : List FilePatch)
    (sel applied skipped : List (List Char)) {e : AppError} {ops : List FSOp}
    (hm : p.path ∈ sel)
    (hw : writeFile hash ws st p.path p.newContent p.expectedSha256 (ticks i).1 (ticks i).2
      = (.error e, ops)) :
    applyLoop hash ws ticks i st (p :: rest) sel applied skipped
      = (some (p.path, e), st.applyOps ops, applied, skipped ++ [p.path], i + 1) := by
  rw [applyLoop, if_neg (Decidable.not_not.mpr hm), hw]

theorem applyLoop_all_skipped (hash : List Char → List Char) (ws : Option WorkspaceMeta)
    (ticks : Nat → Nat × Nat) :
    ∀ (patches : List FilePatch) (i : Nat) (st : FS)
      (sel applied skipped : List (List Char)),
      (∀ fp ∈ patches, fp.path ∉ sel) →
      applyLoop hash ws ticks i st patches sel applied skipped
        = (none, st, applied, skipped ++ patches.map (·.path), i)
  | [], i, st, sel, applied, skipped, _ => by
    rw [applyLoop]
    simp
  | p :: patches', i, st, sel, applied, skipped, hall => by
    rw [applyLoop, if_pos (hall p (by simp)),
      applyLoop_all_skipped hash ws ticks patches' i st sel applied (skipped ++ [p.path])
        (fun fp hfp => hall fp (by simp [hfp]))]
    simp

end Strata

/-- Claim C4: `applyPatch` processes file patches in the set's original order
and the first failing write aborts the whole apply: given that the loop over
the prefix `before` succeeds (reaching state `stMid`) and the next selected
patch `p` fails its write, the call returns `PATCH_APPLY_FAILED` wrapping the
write error, leaves the filesystem exactly at `stMid` (files written before
the failure stay written, nothing after `p` is touched — a failing `writeFile`
performs no operation), keeps the change set in the registry with status
`failed`, and persists the `failed` status. -/
theorem C4_apply_fail_fast :
    ∀ (hash : List Char → List Char) (ws : Option Strata.WorkspaceMeta)
      (ticks : Nat → Nat × Nat) (fsSt : Strata.FS) (pendingById : Strata.PendingMap)
      (changeSetId : List Char) (selectedFiles : Option (List (List Char)))
      (cs : Strata.CodeChangeSet) (before : List Strata.FilePatch) (p : Strata.FilePatch)
      (after : List Strata.FilePatch) (stMid : Strata.FS)
      (appliedMid skippedMid : List (List Char)) (iMid : Nat) (e : Strata.AppError),
      pendingById.lookup changeSetId = some cs →
      cs.filePatches = before ++ p :: after →
      Strata.applyLoop hash ws ticks 0 fsSt before
          (selectedFiles.getD (cs.filePatches.map (·.path))) [] []
        = (none, stMid, appliedMid, skippedMid, iMid) →
      p.path ∈ selectedFiles.getD (cs.filePatches.map (·.path)) →
      Strata.writeFile hash ws stMid p.path p.newContent p.expectedSha256
          (ticks iMid).1 (ticks iMid).2 = (.error e, []) →
      Strata.applyPatch hash ws ticks fsSt pendingById changeSetId selectedFiles
        = (Strata.errRes .PATCH_APPLY_FAILED
            (Strata.str "Failed applying patch for " ++ p.path) (.wrapped e),
          stMid,
          (changeSetId, { cs with status := .failed }) :: Strata.eraseKey changeSetId pendingById,
          [Strata.DBOp.updateChangeSetStatus cs.id .failed]) := by
  intro hash ws ticks fsSt pendingById changeSetId selectedFiles cs before p after
    stMid appliedMid skippedMid iMid e hlook hsplit hloop hmem hw
  set sel := selectedFiles.getD (cs.filePatches.map (·.path)) with hsel
  have hfull : Strata.applyLoop hash ws ticks 0 fsSt cs.filePatches sel [] []
      = (some (p.path, e), stMid.applyOps [], appliedMid, skippedMid ++ [p.path], iMid + 1) := by
    rw [hsplit]
    rw [Strata.applyLoop_append hash ws ticks before (p :: after) 0 fsSt sel [] [] hloop]
    exact Strata.applyLoop_fail_step hash ws ticks iMid stMid p after sel appliedMid skippedMid
      hmem hw
  simp only [Strata.applyPatch, hlook]
  rw [← hsel, hfull]
  rfl

/-- Claim C8: applying a pending change set with a selection that selects none
of its file patches (in particular a set with zero file patches) performs no
filesystem operation, succeeds with an empty `appliedFiles` list and every
patch path reported as skipped, evicts the set from the pending registry, and
persists the `applied` status. -/
theorem C8_empty_selection_trivial_apply :
    ∀ (hash : List Char → List Char) (ws : Option Strata.WorkspaceMeta)
      (ticks : Nat → Nat × Nat) (fsSt : Strata.FS) (pendingById : Strata.PendingMap)
      (changeSetId : List Char) (sel : List (List Char)) (cs : Strata.CodeChangeSet),
      pendingById.lookup changeSetId = some cs →
      (∀ fp ∈ cs.filePatches, fp.path ∉ sel) →
      Strata.applyPatch hash ws ticks fsSt pendingById changeSetId (some sel)
        = (.ok ⟨[], cs.filePatches.map (·.path)⟩, fsSt,
          Strata.eraseKey cs.id pendingById,
          [Strata.DBOp.updateChangeSetStatus cs.id .applied]) := by
  intro hash ws ticks fsSt pendingById changeSetId sel cs hlook hall
  simp only [Strata.applyPatch, hlook, Option.getD_some]
  rw [Strata.applyLoop_all_skipped hash ws ticks cs.filePatches 0 fsSt sel [] [] hall]
  rfl

/-- Claim C5 (amended: the code evicts only `applied` and `discarded` change
sets from the live registry — a set whose apply FAILED stays in the registry,
mutated to status `failed`, and a later apply or discard finds it again
rather than failing with not-found): (1) applying or discarding an unknown id
fails with the not-found error and changes nothing; (2) a fully successful
apply evicts the set, so its id no longer resolves in the registry; (3) a
discard of a pending set succeeds, evicts it, and persists `discarded`;
(4) a failed apply leaves the set in the registry with status `failed`. -/
theorem C5_lifecycle :
    (∀ (hash : List Char → List Char) (ws : Option Strata.WorkspaceMeta)
        (ticks : Nat → Nat × Nat) (fsSt : Strata.FS) (pendingById : Strata.PendingMap)
        (changeSetId : List Char) (selectedFiles : Option (List (List Char))),
      pendingById.lookup changeSetId = none →
      Strata.applyPatch hash ws ticks fsSt pendingById changeSetId selectedFiles
          = (Strata.errRes .PATCH_APPLY_FAILED
              (Strata.str "Change set not found: " ++ changeSetId) .noDetails,
            fsSt, pendingById, [])
        ∧ Strata.discardChangeSet pendingById changeSetId
          = (Strata.errRes .PATCH_APPLY_FAILED
              (Strata.str "Change set not found: " ++ changeSetId) .noDetails,
            pendingById, []))
    ∧ (∀ (hash : List Char → List Char) (ws : Option Strata.WorkspaceMeta)
        (ticks : Nat → Nat × Nat) (fsSt : Strata.FS) (pendingById : Strata.PendingMap)
        (changeSetId : List Char) (selectedFiles : Option (List (List Char)))
        (cs : Strata.CodeChangeSet) (r : Strata.ApplyResult),
      pendingById.lookup changeSetId = some cs →
      (Strata.applyPatch hash ws ticks fsSt pendingById changeSetId selectedFiles).1
          = .ok r →
      ((Strata.applyPatch hash ws ticks fsSt pendingById changeSetId selectedFiles).2.2.1).lookup
          cs.id = none)
    ∧ (∀ (pendingById : Strata.PendingMap) (changeSetId : List Char)
        (cs : Strata.CodeChangeSet),
      pendingById.lookup changeSetId = some cs →
      Strata.discardChangeSet pendingById changeSetId
          = (.ok (), Strata.eraseKey changeSetId pendingById,
            [Strata.DBOp.updateChangeSetStatus changeSetId .discarded])
        ∧ (Strata.eraseKey changeSetId pendingById).lookup changeSetId = none)
    ∧ (∀ (hash : List Char → List Char) (ws : Option Strata.WorkspaceMeta)
        (ticks : Nat → Nat × Nat) (fsSt : Strata.FS) (pendingById : Strata.PendingMap)
        (changeSetId : List Char) (selectedFiles : Option (List (List Char)))
        (cs : Strata.CodeChangeSet) (pp : List Char) (ee : Strata.AppError)
        (st' : Strata.FS) (a s : List (List Char)) (i : Nat),
      pendingById.lookup changeSetId = some cs →
      Strata.applyLoop hash ws ticks 0 fsSt cs.filePatches
          (selectedFiles.getD (cs.filePatches.map (·.path))) [] []
        = (some (pp, ee), st', a, s, i) →
      ((Strata.applyPatch hash ws ticks fsSt pendingById changeSetId selectedFiles).2.2.1).lookup
          changeSetId = some { cs with status := .failed }) := by
  refine ⟨?_, ?_, ?_, ?_⟩
  · intro hash ws ticks fsSt pendingById changeSetId selectedFiles hnone
    constructor
    · simp only [Strata.applyPatch, hnone]
    · simp only [Strata.discardChangeSet, hnone]
  · intro hash ws ticks fsSt pendingById changeSetId selectedFiles cs r hlook hok
    simp only [Strata.applyPatch, hlook] at hok ⊢
    rcases hres : Strata.applyLoop hash ws ticks 0 fsSt cs.filePatches
      (selectedFiles.getD (cs.filePatches.map (·.path))) [] []
      with ⟨failRes, st', applied, skipped, i⟩
    rw [hres] at hok ⊢
    cases failRes with
    | some pe =>
      rcases pe with ⟨pp, ee⟩
      simp [Strata.errRes] at hok
    | none =>
      exact Strata.lookup_eraseKey_self cs.id pendingById
  · intro pendingById changeSetId cs hlook
    refine ⟨?_, Strata.lookup_eraseKey_self changeSetId pendingById⟩
    simp only [Strata.discardChangeSet, hlook]
  · intro hash ws ticks fsSt pendingById changeSetId selectedFiles cs pp ee st' a s i
      hlook hloop
    simp only [Strata.applyPatch, hlook]
    rw [hloop]
    show List.lookup changeSetId ((changeSetId, { cs with status := .failed })
        :: Strata.eraseKey changeSetId pendingById) = _
    rw [List.lookup_cons]
    simp

/-- Witness for C4 at the spec's concrete scenario: three patches where the
second has a stale fingerprint — the first is applied, the second fails, the
third stays untouched, the set ends `failed` and stays registered. -/
theorem C4_apply_fail_fast_witness :
    Strata.applyPatch Strata.hashToy (some Strata.wsMeta) Strata.ticksK Strata.fs3 Strata.pend3
        (Strata.str "cs-3") none
      = (Strata.errRes .PATCH_APPLY_FAILED (Strata.str "Failed applying patch for b.txt")
          (.wrapped (Strata.AppError.mk .HASH_MISMATCH
            (Strata.str "File content hash mismatch. Reload and retry apply.")
            (.hashMismatch (Strata.str "b.txt") (Strata.str "stale")
              (Strata.hashToy (Strata.str "B"))))),
          Strata.stMid3,
          (Strata.str "cs-3", { Strata.cs3 with status := .failed })
            :: Strata.eraseKey (Strata.str "cs-3") Strata.pend3,
          [Strata.DBOp.updateChangeSetStatus (Strata.str "cs-3") .failed])
    ∧ Strata.stMid3.read (Strata.str "/ws/a.txt") = some (Strata.str "A2")
    ∧ Strata.stMid3.read (Strata.str "/ws/b.txt") = some (Strata.str "B")
    ∧ Strata.stMid3.read (Strata.str "/ws/c.txt") = some (Strata.str "C") := by
  refine ⟨?_, by rfl, by rfl, by rfl⟩
  exact C4_apply_fail_fast Strata.hashToy (some Strata.wsMeta) Strata.ticksK Strata.fs3
    Strata.pend3 (Strata.str "cs-3") none Strata.cs3 [Strata.patchA3] Strata.patchB3
    [Strata.patchC3] Strata.stMid3 [Strata.str "a.txt"] [] 1 _ (by rfl) (by rfl) (by rfl)
    (by decide) (by rfl)

/-- Witness for C8 at concrete inputs: applying the three-patch set with an
empty selection writes nothing and reports all three paths skipped. -/
theorem C8_empty_selection_witness :
    Strata.applyPatch Strata.hashToy (some Strata.wsMeta) Strata.ticksK Strata.fs3 Strata.pend3
        (Strata.str "cs-3") (some [])
      = (.ok ⟨[], [Strata.str "a.txt", Strata.str "b.txt", Strata.str "c.txt"]⟩, Strata.fs3,
          Strata.eraseKey (Strata.str "cs-3") Strata.pend3,
          [Strata.DBOp.updateChangeSetStatus (Strata.str "cs-3") .applied]) :=
  C8_empty_selection_trivial_apply Strata.hashToy (some Strata.wsMeta) Strata.ticksK Strata.fs3
    Strata.pend3 (Strata.str "cs-3") [] Strata.cs3 (by rfl) (by decide)

/-- Counterexample to claim C5 as stated: after a failed apply the change set
is NOT evicted from the live registry (it stays there with status `failed`),
and a subsequent discard of this resolved set succeeds instead of failing
with not-found. -/
theorem C5_lifecycle_cex :
    ((Strata.applyPatch Strata.hashToy (some Strata.wsMeta) Strata.ticksK Strata.fs3
        Strata.pend3 (Strata.str "cs-3") none).2.2.1).lookup (Strata.str "cs-3")
        = some { Strata.cs3 with status := .failed }
    ∧ (Strata.discardChangeSet
        (Strata.applyPatch Strata.hashToy (some Strata.wsMeta) Strata.ticksK Strata.fs3
          Strata.pend3 (Strata.str "cs-3") none).2.2.1 (Strata.str "cs-3")).1
        = Except.ok () :=
  ⟨by rfl, by rfl⟩

/-- Witness for C5 at concrete inputs: discarding the pending set succeeds
and evicts it; applying or discarding an unknown id fails with not-found. -/
theorem C5_lifecycle_witness :
    Strata.discardChangeSet Strata.pend3 (Strata.str "cs-3")
        = (.ok (), Strata.eraseKey (Strata.str "cs-3") Strata.pend3,
          [Strata.DBOp.updateChangeSetStatus (Strata.str "cs-3") .discarded])
    ∧ (Strata.discardChangeSet [] (Strata.str "nope")).1
        = Strata.errRes .PATCH_APPLY_FAILED
            (Strata.str "Change set not found: nope") .noDetails := by
  have h1 := C5_lifecycle.1 Strata.hashToy none Strata.ticksK Strata.fs3 [] (Strata.str "nope")
    none (by rfl)
  have h3 := C5_lifecycle.2.2.1 Strata.pend3 (Strata.str "cs-3") Strata.cs3 (by rfl)
  exact ⟨h3.1, by rw [h1.2]; rfl⟩

/-- Counterexample to claim C6 as stated: overwriting `/ws/b.txt` through the
relative path `../ws/b.txt` (which resolves inside the root, so the write
succeeds) places the single backup at `/ws/.strata-backups/ws/b.txt`, because
`path.join(backupRoot, relativePath)` normalizes the `..` segment away — the
backup is NOT under the timestamped subtree `/ws/.strata-backups/1000`. -/
theorem C6_backup_mirror_cex :
    (Strata.writeFile Strata.hashToy (some Strata.wsMeta) Strata.fsB
        (Strata.str "../ws/b.txt") (Strata.str "new") none 1000 7).1 = Except.ok ()
    ∧ Strata.FSOp.writeF (Strata.str "/ws/.strata-backups/ws/b.txt") (Strata.str "old")
        ∈ (Strata.writeFile Strata.hashToy (some Strata.wsMeta) Strata.fsB
            (Strata.str "../ws/b.txt") (Strata.str "new") none 1000 7).2
    ∧ (Strata.backupRootOf (Strata.str "/ws") 1000 ++ [Strata.sep]).isPrefixOf
        (Strata.backupPathOf (Strata.str "/ws") (Strata.str "../ws/b.txt") 1000) = false :=
  ⟨by rfl, by decide, by decide⟩

/-- Claim C6 (amended: the backup lands at `path.join(backupRoot,
relativePath)`, which lies in the timestamped subtree mirroring the relative
path whenever the relative path is made of plain segments — `..` segments are
normalized away by `path.join` and can escape the timestamped subtree, see the
counterexample): every successful overwrite performs exactly the trace
mkdir-target-parent, mkdir-backup-parent, one backup write of the prior
content, then the temp-sibling write and the rename that commits it — so the
backup precedes the commit, and the target path itself is modified only by
the final rename, never written directly. -/
theorem C6_backup_on_overwrite :
    ∀ (hash : List Char → List Char) (w : Strata.WorkspaceMeta) (st : Strata.FS)
      (rel content : List Char) (expected : Option (List Char)) (now rand : Nat)
      (absPath old : List Char),
      Strata.resolveInsideWorkspace st.realpathNoLinks w.rootPath rel false = Except.ok absPath →
      st.read absPath = some old →
      (∀ e, expected = some e → e = [] ∨ hash old = e) →
      (Strata.writeFile hash (some w) st rel content expected now rand
        = (Except.ok (), [.mkdirRec (Strata.dirname absPath),
            .mkdirRec (Strata.dirname (Strata.backupPathOf w.rootPath rel now)),
            .writeF (Strata.backupPathOf w.rootPath rel now) old,
            .writeF (Strata.tmpPathOf absPath now rand) content,
            .renameF (Strata.tmpPathOf absPath now rand) absPath])
        ∧ (Strata.backupPathOf w.rootPath rel now ≠ absPath →
            ∀ c, Strata.FSOp.writeF absPath c
              ∉ (Strata.writeFile hash (some w) st rel content expected now rand).2)
        ∧ ((∀ s ∈ Strata.splitOnSep rel, Strata.GoodSeg s) →
            Strata.segsOf (Strata.backupRootOf w.rootPath now) ≠ [] →
            (Strata.backupRootOf w.rootPath now ++ [Strata.sep])
              <+: Strata.backupPathOf w.rootPath rel now)) := by
  intro hash w st rel content expected now rand absPath old hres hold hpre
  have htr : Strata.writeFile hash (some w) st rel content expected now rand
      = (Except.ok (), [.mkdirRec (Strata.dirname absPath),
          .mkdirRec (Strata.dirname (Strata.backupPathOf w.rootPath rel now)),
          .writeF (Strata.backupPathOf w.rootPath rel now) old,
          .writeF (Strata.tmpPathOf absPath now rand) content,
          .renameF (Strata.tmpPathOf absPath now rand) absPath]) :=
    Strata.writeFile_ok_existing hres hold hpre
  refine ⟨htr, ?_, ?_⟩
  · intro hbp c hmem
    rw [htr] at hmem
    simp only [List.mem_cons, List.not_mem_nil, or_false] at hmem
    rcases hmem with h | h | h | h | h
    · exact Strata.FSOp.noConfusion h
    · exact Strata.FSOp.noConfusion h
    · injection h with h1 h2
      exact hbp h1.symm
    · injection h with h1 h2
      exact Strata.tmpPathOf_ne absPath now rand h1.symm
    · exact Strata.FSOp.noConfusion h
  · intro hclean hbne
    have hrender : Strata.renderAbs (Strata.segsOf (Strata.backupRootOf w.rootPath now))
        = Strata.backupRootOf w.rootPath now := by
      show Strata.renderAbs (Strata.segsOf (Strata.renderAbs (Strata.segsOf
          (Strata.pathJoin w.rootPath (Strata.str ".strata-backups")
            ++ Strata.sep :: Strata.natChars now))))
        = Strata.renderAbs (Strata.segsOf
          (Strata.pathJoin w.rootPath (Strata.str ".strata-backups")
            ++ Strata.sep :: Strata.natChars now))
      rw [Strata.segsOf_renderAbs (Strata.goodSeg_segsOf _)]
    have hpre := Strata.pathJoin_prefix_of_clean
      (Strata.segsOf (Strata.backupRootOf w.rootPath now)) rel
      (Strata.goodSeg_segsOf _) hbne hclean
    rw [hrender] at hpre
    exact hpre

/-- Witness for C6 at concrete inputs: overwriting `/ws/a.txt` through the
plain relative path `a.txt` produces exactly the backup-then-commit trace,
never writes the target directly, and the backup lies under the timestamped
subtree `/ws/.strata-backups/1000/`. -/
theorem C6_backup_on_overwrite_witness :
    Strata.writeFile Strata.hashToy (some Strata.wsMeta) Strata.fsOne
        (Strata.str "a.txt") (Strata.str "new") none 1000 7
      = (Except.ok (), [.mkdirRec (Strata.dirname (Strata.str "/ws/a.txt")),
          .mkdirRec (Strata.dirname (Strata.backupPathOf (Strata.str "/ws") (Strata.str "a.txt") 1000)),
          .writeF (Strata.backupPathOf (Strata.str "/ws") (Strata.str "a.txt") 1000) (Strata.str "old"),
          .writeF (Strata.tmpPathOf (Strata.str "/ws/a.txt") 1000 7) (Strata.str "new"),
          .renameF (Strata.tmpPathOf (Strata.str "/ws/a.txt") 1000 7) (Strata.str "/ws/a.txt")])
    ∧ (∀ c, Strata.FSOp.writeF (Strata.str "/ws/a.txt") c
        ∉ (Strata.writeFile Strata.hashToy (some Strata.wsMeta) Strata.fsOne
            (Strata.str "a.txt") (Strata.str "new") none 1000 7).2)
    ∧ (Strata.backupRootOf (Strata.str "/ws") 1000 ++ [Strata.sep])
        <+: Strata.backupPathOf (Strata.str "/ws") (Strata.str "a.txt") 1000 := by
  have h := C6_backup_on_overwrite Strata.hashToy Strata.wsMeta Strata.fsOne
    (Strata.str "a.txt") (Strata.str "new") none 1000 7
    (Strata.str "/ws/a.txt") (Strata.str "old") (by rfl) (by rfl)
    (fun e he => Option.noConfusion he)
  exact ⟨h.1, h.2.1 (by decide), h.2.2 (by decide) (by decide)⟩

/-- Counterexample to claim C3 as stated: writing to the existing file
`a.txt` (content `old`) while supplying the expected fingerprint `""` — a
fingerprint that differs from the hash of the on-disk content — does not
fail with hash-mismatch: `expectedSha256 && hadExistingFile` treats the empty
string as absent, so the write succeeds and replaces the content. -/
theorem C3_write_precondition_cex :
    Strata.hashToy (Strata.str "old") ≠ Strata.str ""
    ∧ (Strata.writeFile Strata.hashToy (some Strata.wsMeta) Strata.fsOne
        (Strata.str "a.txt") (Strata.str "new") (some (Strata.str "")) 1000 7).1
        = Except.ok ()
    ∧ (Strata.fsOne.applyOps
        (Strata.writeFile Strata.hashToy (some Strata.wsMeta) Strata.fsOne
          (Strata.str "a.txt") (Strata.str "new") (some (Strata.str "")) 1000 7).2).read
          (Strata.str "/ws/a.txt") = some (Strata.str "new") :=
  ⟨by decide, by rfl, by rfl⟩

/-- Claim C3 (amended: the supplied fingerprint must be non-empty, since the
JavaScript truthiness test skips the check for `""`): with a resolvable
target, (a) a non-empty stale fingerprint on an existing file fails with
hash-mismatch carrying the path, the expected and the actual hash, performing
no filesystem operation at all; (b) a matching fingerprint succeeds and a
subsequent read returns exactly the written content with its fresh
fingerprint; (c) so does a write with no precondition to a fresh path. -/
theorem C3_write_precondition :
    ∀ (hash : List Char → List Char) (w : Strata.WorkspaceMeta) (st : Strata.FS)
      (rel content : List Char) (now rand : Nat) (absPath : List Char),
      Strata.resolveInsideWorkspace st.realpathNoLinks w.rootPath rel false = Except.ok absPath →
      ((∀ old e, st.read absPath = some old → e ≠ [] → hash old ≠ e →
          Strata.writeFile hash (some w) st rel content (some e) now rand
            = (Strata.errRes .HASH_MISMATCH
                (Strata.str "File content hash mismatch. Reload and retry apply.")
                (.hashMismatch rel e (hash old)), []))
        ∧ (∀ old e, st.read absPath = some old → hash old = e →
            (Strata.writeFile hash (some w) st rel content (some e) now rand).1 = Except.ok ()
            ∧ Strata.readFile hash (some w)
                (st.applyOps (Strata.writeFile hash (some w) st rel content (some e) now rand).2) rel
              = Except.ok ⟨content, Strata.str "utf-8", hash content⟩)
        ∧ (st.read absPath = none →
            (Strata.writeFile hash (some w) st rel content none now rand).1 = Except.ok ()
            ∧ Strata.readFile hash (some w)
                (st.applyOps (Strata.writeFile hash (some w) st rel content none now rand).2) rel
              = Except.ok ⟨content, Strata.str "utf-8", hash content⟩)) := by
  intro hash w st rel content now rand absPath hres
  obtain ⟨hjw, hwin⟩ := Strata.resolveOk_false_elim hres
  refine ⟨fun old e hold he hne => Strata.writeFile_hashMismatch hres hold he hne,
    fun old e hold hm => ?_, fun hnone => ?_⟩
  · have htr : Strata.writeFile hash (some w) st rel content (some e) now rand
        = (Except.ok (), [.mkdirRec (Strata.dirname absPath),
            .mkdirRec (Strata.dirname (Strata.backupPathOf w.rootPath rel now)),
            .writeF (Strata.backupPathOf w.rootPath rel now) old,
            .writeF (Strata.tmpPathOf absPath now rand) content,
            .renameF (Strata.tmpPathOf absPath now rand) absPath]) :=
      Strata.writeFile_ok_existing hres hold
        (fun e' he' => by
          have hee : e = e' := by injection he'
          exact Or.inr (hee ▸ hm))
    rw [htr]
    refine ⟨rfl, ?_⟩
    apply Strata.readFile_of_read_some hjw hwin
    rw [Strata.applyOps_five]
    exact Strata.read_after_tmp_rename _ _ _ _
  · have htr : Strata.writeFile hash (some w) st rel content none now rand
        = (Except.ok (), [.mkdirRec (Strata.dirname absPath),
            .writeF (Strata.tmpPathOf absPath now rand) content,
            .renameF (Strata.tmpPathOf absPath now rand) absPath]) :=
      Strata.writeFile_ok_new hres hnone
    rw [htr]
    refine ⟨rfl, ?_⟩
    apply Strata.readFile_of_read_some hjw hwin
    rw [Strata.applyOps_three]
    exact Strata.read_after_tmp_rename _ _ _ _

/-- Witness for C3 at concrete inputs: on `/ws/a.txt` with content `old`, a
stale fingerprint `"x"` fails with hash-mismatch, and a matching fingerprint
write of `new` reads back as `new`. -/
theorem C3_write_precondition_witness :
    (Strata.writeFile Strata.hashToy (some Strata.wsMeta) Strata.fsOne
        (Strata.str "a.txt") (Strata.str "new") (some (Strata.str "x")) 1000 7)
      = (Strata.errRes .HASH_MISMATCH
          (Strata.str "File content hash mismatch. Reload and retry apply.")
          (.hashMismatch (Strata.str "a.txt") (Strata.str "x")
            (Strata.hashToy (Strata.str "old"))), [])
    ∧ Strata.readFile Strata.hashToy (some Strata.wsMeta)
        (Strata.fsOne.applyOps (Strata.writeFile Strata.hashToy (some Strata.wsMeta)
          Strata.fsOne (Strata.str "a.txt") (Strata.str "new")
          (some (Strata.hashToy (Strata.str "old"))) 1000 7).2) (Strata.str "a.txt")
        = Except.ok ⟨Strata.str "new", Strata.str "utf-8", Strata.hashToy (Strata.str "new")⟩ := by
  have h := C3_write_precondition Strata.hashToy Strata.wsMeta Strata.fsOne
    (Strata.str "a.txt") (Strata.str "new") 1000 7 (Strata.str "/ws/a.txt") (by rfl)
  exact ⟨h.1 (Strata.str "old") (Strata.str "x") (by rfl) (by decide) (by decide),
    (h.2.1 (Strata.str "old") (Strata.hashToy (Strata.str "old")) (by rfl) rfl).2⟩

/-- Claim C9: a fingerprint precondition supplied for a path with no existing
file is silently ignored — the write succeeds (no backup, just the
temp-write-and-rename commit) and the file is created with the new content. -/
theorem C9_fingerprint_ignored_on_new_file :
    ∀ (hash : List Char → List Char) (w : Strata.WorkspaceMeta) (st : Strata.FS)
      (rel content e : List Char) (now rand : Nat) (absPath : List Char),
      Strata.resolveInsideWorkspace st.realpathNoLinks w.rootPath rel false = Except.ok absPath →
      st.read absPath = none →
      Strata.writeFile hash (some w) st rel content (some e) now rand
        = (Except.ok (), [.mkdirRec (Strata.dirname absPath),
            .writeF (Strata.tmpPathOf absPath now rand) content,
            .renameF (Strata.tmpPathOf absPath now rand) absPath])
      ∧ Strata.readFile hash (some w)
          (st.applyOps (Strata.writeFile hash (some w) st rel content (some e) now rand).2) rel
        = Except.ok ⟨content, Strata.str "utf-8", hash content⟩ := by
  intro hash w st rel content e now rand absPath hres hnone
  obtain ⟨hjw, hwin⟩ := Strata.resolveOk_false_elim hres
  have htr : Strata.writeFile hash (some w) st rel content (some e) now rand
      = (Except.ok (), [.mkdirRec (Strata.dirname absPath),
          .writeF (Strata.tmpPathOf absPath now rand) content,
          .renameF (Strata.tmpPathOf absPath now rand) absPath]) :=
    Strata.writeFile_ok_new hres hnone
  refine ⟨htr, ?_⟩
  rw [htr]
  apply Strata.readFile_of_read_some hjw hwin
  rw [Strata.applyOps_three]
  exact Strata.read_after_tmp_rename _ _ _ _

/-- Witness for C9 at concrete inputs: writing `b.txt` (no existing file)
with the unmatched fingerprint `"deadbeef"` succeeds and reads back. -/
theorem C9_fingerprint_ignored_witness :
    Strata.writeFile Strata.hashToy (some Strata.wsMeta) Strata.fsEmpty
        (Strata.str "b.txt") (Strata.str "data") (some (Strata.str "deadbeef")) 1000 7
      = (Except.ok (), [.mkdirRec (Strata.str "/ws"),
          .writeF (Strata.tmpPathOf (Strata.str "/ws/b.txt") 1000 7) (Strata.str "data"),
          .renameF (Strata.tmpPathOf (Strata.str "/ws/b.txt") 1000 7) (Strata.str "/ws/b.txt")])
    ∧ Strata.readFile Strata.hashToy (some Strata.wsMeta)
        (Strata.fsEmpty.applyOps (Strata.writeFile Strata.hashToy (some Strata.wsMeta)
          Strata.fsEmpty (Strata.str "b.txt") (Strata.str "data")
          (some (Strata.str "deadbeef")) 1000 7).2) (Strata.str "b.txt")
        = Except.ok ⟨Strata.str "data", Strata.str "utf-8", Strata.hashToy (Strata.str "data")⟩ := by
  have h := C9_fingerprint_ignored_on_new_file Strata.hashToy Strata.wsMeta Strata.fsEmpty
    (Strata.str "b.txt") (Strata.str "data") (Strata.str "deadbeef") 1000 7
    (Strata.str "/ws/b.txt") (by rfl) (by rfl)
  exact ⟨h.1.trans (by rfl), h.2⟩

/-- Claim C2: a symlink whose own (joined) path is inside the root but whose
`fs.realpath` target is outside fails `resolveInsideWorkspace` with
`mustExist = true`, yielding the path-outside-workspace error; and every
`FileNode` returned by a directory walk comes from an entry that is either not
a symlink or a symlink whose resolved target is inside the root — escaping
symlink entries are silently excluded at every level. -/
theorem C2_symlink_exclusion :
    (∀ (realpathFn : List Char → Option (List Char)) (R rel real : List Char),
        Strata.isWithinRoot (Strata.normalize R)
            (Strata.normalize (Strata.resolveFrom (Strata.normalize R) rel)) = true →
        realpathFn (Strata.normalize (Strata.resolveFrom (Strata.normalize R) rel)) = some real →
        Strata.isWithinRoot (Strata.normalize R) real = false →
        Strata.resolveInsideWorkspace realpathFn R rel true
          = .error (.pathOutside real (Strata.normalize R)))
    ∧ (∀ (fs : Strata.WalkFS) (rootPath : List Char) (depth : Nat) (absDir : List Char)
          (node : Strata.FileNode), node ∈ Strata.walk fs rootPath depth absDir →
        ∃ e ∈ fs.readdir absDir, node.name = e.name ∧
          (fs.lstatIsSymlink (Strata.childPath absDir e.name) = true →
            ∃ r, fs.realpathF (Strata.childPath absDir e.name) = some r ∧
              Strata.isWithinRoot rootPath r = true)) :=
  ⟨Strata.resolveInsideWorkspace_symlink_escape, Strata.walk_excludes_escaping_symlinks⟩

/-- Witness for C2 at concrete inputs: a symlink `/ws/link` resolving to
`/outside` is rejected on the `mustExist` path, and the node listed for the
sample filesystem comes from the (non-symlink) entry `a.txt`. -/
theorem C2_symlink_exclusion_witness :
    Strata.resolveInsideWorkspace
        (fun p => if p = Strata.str "/ws/link" then some (Strata.str "/outside") else some p)
        (Strata.str "/ws") (Strata.str "link") true
      = .error (.pathOutside (Strata.str "/outside") (Strata.str "/ws"))
    ∧ ∃ e ∈ Strata.sampleWalkFS.readdir (Strata.str "/ws"),
        (Strata.FileNode.file (Strata.str "a.txt") (Strata.str "a.txt") 3 5).name = e.name ∧
          (Strata.sampleWalkFS.lstatIsSymlink (Strata.childPath (Strata.str "/ws") e.name) = true →
            ∃ r, Strata.sampleWalkFS.realpathF (Strata.childPath (Strata.str "/ws") e.name) = some r ∧
              Strata.isWithinRoot (Strata.str "/ws") r = true) := by
  constructor
  · have h := C2_symlink_exclusion.1
      (fun p => if p = Strata.str "/ws/link" then some (Strata.str "/outside") else some p)
      (Strata.str "/ws") (Strata.str "link") (Strata.str "/outside")
      (by decide) (by decide) (by decide)
    exact h.trans (by rfl)
  · refine C2_symlink_exclusion.2 Strata.sampleWalkFS (Strata.str "/ws") 3 (Strata.str "/ws")
      (Strata.FileNode.file (Strata.str "a.txt") (Strata.str "a.txt") 3 5) ?_
    show Strata.FileNode.file (Strata.str "a.txt") (Strata.str "a.txt") 3 5
        ∈ Strata.walk Strata.sampleWalkFS (Strata.str "/ws") 3 (Strata.str "/ws")
    have hw : Strata.walk Strata.sampleWalkFS (Strata.str "/ws") 3 (Strata.str "/ws")
        = [Strata.FileNode.file (Strata.str "a.txt") (Strata.str "a.txt") 3 5] := by rfl
    rw [hw]
    exact List.mem_singleton.mpr rfl

/-- Claim C1: `withinRoot(R,P)` is true iff canonical `P` equals canonical `R`
or extends it by at least one segment (the separator-prefix rule, stated at the
segment level; for the root `"/"` the extra-segment case is vacuous exactly as
the string comparison `candidate.startsWith(root + sep)` makes it); sibling
directories sharing a name prefix are rejected; and a relative path of `k+1`
`..` segments always fails `resolveInsideWorkspace` with the
path-outside-workspace error, for every depth. -/
theorem C1_sandbox_containment :
    (∀ R P : List Char, Strata.isAbsolute R = true → Strata.isAbsolute P = true →
        (Strata.isWithinRoot R P = true ↔
          (Strata.segsOf P = Strata.segsOf R ∨
            (Strata.segsOf R ≠ [] ∧ Strata.segsOf R <+: Strata.segsOf P ∧
              Strata.segsOf R ≠ Strata.segsOf P))))
    ∧ Strata.isWithinRoot (Strata.str "/tmp/workspace") (Strata.str "/tmp/workspace-other") = false
    ∧ (∀ (realpathFn : List Char → Option (List Char)) (R : List Char) (k : Nat),
        Strata.segsOf R ≠ [] →
        Strata.resolveInsideWorkspace realpathFn R (Strata.dotDots (k + 1)) false
          = .error (.pathOutside (Strata.renderAbs ((List.dropLast)^[k + 1] (Strata.segsOf R)))
              (Strata.renderAbs (Strata.segsOf R)))) :=
  ⟨fun R P _ _ => Strata.isWithinRoot_iff R P, by decide,
    fun realpathFn R k h => Strata.resolveInsideWorkspace_dotDots realpathFn R k h⟩

/-- Witness for C1 at concrete inputs: `/a/b` is inside root `/a`, and a
depth-2 `../..` traversal from `/tmp/ws` fails with the
path-outside-workspace error naming `/`. -/
theorem C1_sandbox_containment_witness :
    Strata.isWithinRoot (Strata.str "/a") (Strata.str "/a/b") = true
    ∧ Strata.resolveInsideWorkspace (fun p => some p) (Strata.str "/tmp/ws") (Strata.dotDots 2) false
        = .error (.pathOutside (Strata.str "/") (Strata.str "/tmp/ws")) := by
  constructor
  · exact (C1_sandbox_containment.1 (Strata.str "/a") (Strata.str "/a/b")
      (by decide) (by decide)).mpr (by decide)
  · have h := C1_sandbox_containment.2.2 (fun p => some p) (Strata.str "/tmp/ws") 1 (by decide)
    exact h.trans (by rfl)

-- sanity checks for the security model

example :
    Strata.resolveInsideWorkspace (fun p => some p) (Strata.str "/tmp/ws") (Strata.str "../escape.txt") false
      = .error (.pathOutside (Strata.str "/tmp/escape.txt") (Strata.str "/tmp/ws")) := by rfl

example : Strata.dotDots 2 = Strata.str "../.." := by decide

example :
    Strata.resolveInsideWorkspace (fun p => some p) (Strata.str "/tmp/ws") (Strata.dotDots 3) false
      = .error (.pathOutside (Strata.str "/") (Strata.str "/tmp/ws")) := by rfl

-- sanity checks for the path model

example : Strata.resolveAbs (Strata.str "/a/../../b//./c") = Strata.str "/b/c" := by decide

example : Strata.resolveAbs (Strata.str "/") = Strata.str "/" := by decide

example : Strata.isWithinRoot (Strata.str "/tmp/workspace") (Strata.str "/tmp/workspace/src/file.ts") = true := by
  decide

example : Strata.isWithinRoot (Strata.str "/tmp/workspace") (Strata.str "/tmp/workspace-other") = false := by
  decide

example : Strata.resolveFrom (Strata.str "/tmp/ws") (Strata.str "../ws/b.txt") = Strata.str "/tmp/ws/b.txt" := by
  decide

example : Strata.pathJoin (Strata.str "/r/.strata-backups/1000") (Strata.str "../ws/b.txt")
    = Strata.str "/r/.strata-backups/ws/b.txt" := by decide

example : Strata.dirname (Strata.str "/a/b/c.txt") = Strata.str "/a/b" := by decide

/-- Claim C7: the confirmation gate of `runCommand`.  (a) With `confirmed`
not the literal `true` (the parameter is a boolean — the IPC schema enforces
`z.literal(true)` — so the only other value is `false`), the call returns
command-denied with empty persistence and spawn traces and an unchanged
proposal table, for every table — the gate runs before the table is
consulted.  (b) With `confirmed = true`, if no workspace is open, or the
stored working directory is no longer within the current root, the call
fails with the path-outside-workspace error and spawns nothing. -/
theorem C7_confirmation_gate :
    (∀ (ws : Option Strata.WorkspaceMeta) (proposals : Strata.ProposalMap)
        (proposalId runId startedAt : List Char),
      Strata.runCommand ws proposals proposalId false runId startedAt
        = (Strata.errRes .COMMAND_DENIED
            (Strata.str "Command execution requires explicit confirmation") .noDetails,
          proposals, [], []))
    ∧ (∀ (proposals : Strata.ProposalMap) (proposalId runId startedAt : List Char)
        (record : Strata.ProposalRecord),
      proposals.lookup proposalId = some record →
      Strata.runCommand none proposals proposalId true runId startedAt
        = (Strata.errRes .PATH_OUTSIDE_WORKSPACE
            (Strata.str "Command cwd is no longer valid for active workspace") .noDetails,
          proposals, [], []))
    ∧ (∀ (w : Strata.WorkspaceMeta) (proposals : Strata.ProposalMap)
        (proposalId runId startedAt : List Char) (record : Strata.ProposalRecord),
      proposals.lookup proposalId = some record →
      Strata.isWithinRoot w.rootPath record.absCwd = false →
      Strata.runCommand (some w) proposals proposalId true runId startedAt
        = (Strata.errRes .PATH_OUTSIDE_WORKSPACE
            (Strata.str "Command cwd is no longer valid for active workspace") .noDetails,
          proposals, [], [])) := by
  refine ⟨fun ws proposals proposalId runId startedAt => rfl, ?_, ?_⟩
  · intro proposals proposalId runId startedAt record hlook
    simp only [Strata.runCommand, hlook, Bool.not_true, Bool.false_eq_true, reduceIte]
  · intro w proposals proposalId runId startedAt record hlook hout
    simp only [Strata.runCommand, hlook, hout, Bool.not_true, Bool.false_eq_true, reduceIte,
      not_false_eq_true]

/-- Witness for C7 at concrete inputs: an unconfirmed run of the stored
proposal `p-1` is denied, and a confirmed run against the changed workspace
`/other` (which no longer contains the stored cwd `/ws`) fails with
path-outside-workspace. -/
theorem C7_confirmation_gate_witness :
    Strata.runCommand (some Strata.wsMeta) Strata.propsK (Strata.str "p-1") false
        (Strata.str "r-1") (Strata.str "t1")
      = (Strata.errRes .COMMAND_DENIED
          (Strata.str "Command execution requires explicit confirmation") .noDetails,
        Strata.propsK, [], [])
    ∧ Strata.runCommand (some Strata.wsOther) Strata.propsK (Strata.str "p-1") true
        (Strata.str "r-1") (Strata.str "t1")
      = (Strata.errRes .PATH_OUTSIDE_WORKSPACE
          (Strata.str "Command cwd is no longer valid for active workspace") .noDetails,
        Strata.propsK, [], []) :=
  ⟨C7_confirmation_gate.1 (some Strata.wsMeta) Strata.propsK (Strata.str "p-1")
      (Strata.str "r-1") (Strata.str "t1"),
    C7_confirmation_gate.2.2 Strata.wsOther Strata.propsK (Strata.str "p-1")
      (Strata.str "r-1") (Strata.str "t1") Strata.recK (by rfl) (by decide)⟩

/-- Claim C10: `runCommand` never removes a proposal from the in-memory
table: after a successful run the record remains stored (with decision
`approved`), so a second confirmed `runCommand` with the same proposal id
succeeds and spawns the same command again — one confirmation permits
repeated execution. -/
theorem C10_proposal_never_consumed :
    ∀ (w : Strata.WorkspaceMeta) (proposals : Strata.ProposalMap)
      (proposalId runId startedAt runId' startedAt' : List Char)
      (record : Strata.ProposalRecord),
      proposals.lookup proposalId = some record →
      Strata.isWithinRoot w.rootPath record.absCwd = true →
      ((Strata.runCommand (some w) proposals proposalId true runId startedAt).1
          = .ok ⟨runId, proposalId, startedAt⟩
        ∧ (Strata.runCommand (some w) proposals proposalId true runId startedAt).2.1.lookup
            proposalId
          = some { record with proposal := { record.proposal with decision := .approved } }
        ∧ (Strata.runCommand (some w) proposals proposalId true runId startedAt).2.2.2
          = [Strata.SpawnEvent.spawn record.proposal.command record.absCwd]
        ∧ (Strata.runCommand (some w)
            (Strata.runCommand (some w) proposals proposalId true runId startedAt).2.1
            proposalId true runId' startedAt').1 = .ok ⟨runId', proposalId, startedAt'⟩
        ∧ (Strata.runCommand (some w)
            (Strata.runCommand (some w) proposals proposalId true runId startedAt).2.1
            proposalId true runId' startedAt').2.2.2
          = [Strata.SpawnEvent.spawn record.proposal.command record.absCwd]) := by
  intro w proposals proposalId runId startedAt runId' startedAt' record hlook hin
  have h1 := Strata.runCommand_ok w proposals proposalId runId startedAt record hlook hin
  have hlook2 : ((Strata.runCommand (some w) proposals proposalId true runId startedAt).2.1).lookup
      proposalId
      = some { record with proposal := { record.proposal with decision := .approved } } := by
    rw [h1]
    show List.lookup proposalId ((proposalId, _) :: _) = _
    rw [List.lookup_cons]
    simp
  have h2 := Strata.runCommand_ok w
    (Strata.runCommand (some w) proposals proposalId true runId startedAt).2.1
    proposalId runId' startedAt'
    { record with proposal := { record.proposal with decision := .approved } } hlook2 hin
  refine ⟨by rw [h1], hlook2, by rw [h1], by rw [h2], by rw [h2]⟩

/-- Witness for C10 at concrete inputs: the stored proposal `p-1` is run
twice with `confirmed = true`; both runs succeed and both spawn
`echo hi` in `/ws`. -/
theorem C10_proposal_never_consumed_witness :
    (Strata.runCommand (some Strata.wsMeta) Strata.propsK (Strata.str "p-1") true
        (Strata.str "r-1") (Strata.str "t1")).2.2.2
      = [Strata.SpawnEvent.spawn (Strata.str "echo hi") (Strata.str "/ws")]
    ∧ (Strata.runCommand (some Strata.wsMeta)
        (Strata.runCommand (some Strata.wsMeta) Strata.propsK (Strata.str "p-1") true
          (Strata.str "r-1") (Strata.str "t1")).2.1
        (Strata.str "p-1") true (Strata.str "r-2") (Strata.str "t2")).2.2.2
      = [Strata.SpawnEvent.spawn (Strata.str "echo hi") (Strata.str "/ws")] := by
  have h := C10_proposal_never_consumed Strata.wsMeta Strata.propsK (Strata.str "p-1")
    (Strata.str "r-1") (Strata.str "t1") (Strata.str "r-2") (Strata.str "t2")
    Strata.recK (by rfl) (by decide)
  exact ⟨h.2.2.1, h.2.2.2.2⟩
